import Mathlib

/-!
Verification development for the trace-log parsing and correlation engine of
the `etrace` repository (package `internal/strace`: the exec-timing parser
with its pid tracker, and the file-access tracing parser).

Modelling conventions, chosen once for the whole file:

* Go `float64` timestamps are modelled as exact rationals (`ℚ`).  The source
  converts a fractional-second epoch float to a `time.Time` via
  `unixFloatSecondsToTime` (floor seconds + scaled nanoseconds), which is the
  identity on the represented real number, so model times are the rationals
  themselves.  `time.Duration` values are likewise kept as rational seconds.
* `unixFloatSecondsToTime` panics when its argument is outside the `int64`
  range (the Go comparison `t > math.MaxInt64 || t < math.MinInt64` converts
  both constants to `float64`, giving the bounds `2^63` and `-2^63`).  A Go
  panic is modelled as the distinguished outcome `Failure.panicked`, kept
  separate from the typed errors that the parse functions return.
* The Go `map[string]exeStart` pid tracker is modelled as an association list;
  the source never iterates over the map, so iteration order is irrelevant.
* The regular expressions of the source are transcribed literally into a
  small regex AST and executed by a backtracking matcher with leftmost-first
  semantics, which is the submatch semantics of Go's `regexp` package.
* Caller-supplied path/program regular expressions, `filepath.Match` globs
  and `os.Stat` results are environment inputs of the report-building phase
  and are passed in as function parameters.
-/

namespace Etrace

/-! ## A tiny regex engine

Backtracking matcher over a regex AST, with numbered capture groups and
leftmost-first (Perl-style) match selection, mirroring the semantics of Go's
`regexp.FindStringSubmatch` on the patterns used by the source.  `Re.star`
and the derived plus/option combinators carry a greediness flag (`true` for
greedy `*`, false for lazy `*?`). -/

inductive Re where
  | eps : Re
  | ch : Char → Re
  | cls : Bool → List Char → List (Char × Char) → Re
  | anyc : Re
  | seq : Re → Re → Re
  | alt : Re → Re → Re
  | star : Bool → Re → Re
  | opt : Bool → Re → Re
  | group : Nat → Re → Re
  | endAnchor : Re

/-- Character-class membership: `cls neg lits ranges` matches a character in
`lits` or one of the inclusive `ranges`, negated when `neg` is true. -/
def clsMatches (neg : Bool) (lits : List Char) (ranges : List (Char × Char)) (c : Char) : Bool :=
  let inSet := lits.contains c || ranges.any (fun r => decide (r.1 ≤ c) && decide (c ≤ r.2))
  if neg then !inSet else inSet

/-- Capture list: `(group index, start position, end position)`, most recent
first. -/
abbrev Caps := List (Nat × Nat × Nat)

/-- A matcher continuation: receives the current position, the remaining
characters and the captures accumulated so far. -/
abbrev Cont := Nat → List Char → Caps → Option Caps

/-- The backtracking matcher.  `fuel` is decremented on every recursive call
and therefore bounds only the recursion *depth* (backtracking alternatives
each restart from the fuel of their branch point); a star iteration costs a
constant amount of depth and consumes at least one character under the
progress guard, so the ample fuel chosen in `findStringSubmatch` can never
be exhausted on the patterns of this file. -/
def mtch : Nat → Re → Nat → List Char → Caps → Cont → Option Caps
  | 0, _, _, _, _, _ => none
  | fuel + 1, re, pos, rest, caps, k =>
    match re with
    | .eps => k pos rest caps
    | .ch c =>
      match rest with
      | c2 :: rest2 => if c2 = c then k (pos + 1) rest2 caps else none
      | [] => none
    | .cls neg lits ranges =>
      match rest with
      | c2 :: rest2 => if clsMatches neg lits ranges c2 then k (pos + 1) rest2 caps else none
      | [] => none
    | .anyc =>
      match rest with
      | c2 :: rest2 => if c2 = '\n' then none else k (pos + 1) rest2 caps
      | [] => none
    | .seq a b =>
      mtch fuel a pos rest caps (fun p r c => mtch fuel b p r c k)
    | .alt a b =>
      match mtch fuel a pos rest caps k with
      | some res => some res
      | none => mtch fuel b pos rest caps k
    | .opt g a =>
      if g then
        match mtch fuel a pos rest caps k with
        | some res => some res
        | none => k pos rest caps
      else
        match k pos rest caps with
        | some res => some res
        | none => mtch fuel a pos rest caps k
    | .group n a =>
      mtch fuel a pos rest caps (fun p r c => k p r ((n, pos, p) :: c))
    | .endAnchor =>
      match rest with
      | [] => k pos rest caps
      | _ :: _ => none
    | .star g a =>
      if g then
        match mtch fuel a pos rest caps
            (fun p r c => if pos < p then mtch fuel (.star true a) p r c k else none) with
        | some res => some res
        | none => k pos rest caps
      else
        match k pos rest caps with
        | some res => some res
        | none =>
          mtch fuel a pos rest caps
            (fun p r c => if pos < p then mtch fuel (.star false a) p r c k else none)

/-- Number of AST nodes, used to provision matcher fuel. -/
def reSize : Re → Nat
  | .eps => 1
  | .ch _ => 1
  | .cls _ _ _ => 1
  | .anyc => 1
  | .seq a b => 1 + reSize a + reSize b
  | .alt a b => 1 + reSize a + reSize b
  | .opt _ a => 1 + reSize a
  | .group _ a => 1 + reSize a
  | .endAnchor => 1
  | .star _ a => 1 + reSize a

/-- Ample matcher fuel for a pattern and subject length: recursion depth is
bounded by a small multiple of `pattern size + subject length`. -/
def ampleFuel (re : Re) (len : Nat) : Nat := (reSize re + 2) * (len + 2) * 4

/-- Unanchored search: try each start position from left to right, returning
the first (leftmost) successful match, as `regexp.FindStringSubmatch` does. -/
def searchFrom (re : Re) (fuel : Nat) : Nat → List Char → Option Caps
  | pos, [] => mtch fuel re pos [] [] (fun p _ c => some ((0, pos, p) :: c))
  | pos, c :: rest2 =>
    match mtch fuel re pos (c :: rest2) [] (fun p _ c => some ((0, pos, p) :: c)) with
    | some caps => some caps
    | none => searchFrom re fuel (pos + 1) rest2

/-- Extract capture group `n` from the capture list as a substring of the
subject (most recent capture of the group wins); an absent group yields "". -/
def capStr (s : List Char) (caps : Caps) (n : Nat) : String :=
  match caps.find? (fun t => t.1 = n) with
  | some t => String.mk ((s.take t.2.2).drop t.2.1)
  | none => ""

/-- A compiled pattern: whether it is anchored at the start (`^`), its number
of capture groups, and its AST. -/
structure Regex where
  anchored : Bool
  ngroups : Nat
  re : Re

/-- Model of `regexp.FindStringSubmatch`: `[]` when there is no match,
otherwise the full match followed by the `ngroups` capture groups. -/
def findStringSubmatch (rx : Regex) (s : String) : List String :=
  let cs := s.data
  let res :=
    if rx.anchored then
      mtch (ampleFuel rx.re cs.length) rx.re 0 cs [] (fun p _ c => some ((0, 0, p) :: c))
    else searchFrom rx.re (ampleFuel rx.re cs.length) 0 cs
  match res with
  | none => []
  | some caps => (List.range (rx.ngroups + 1)).map (capStr cs caps)

/-! Regex-building helpers used to transcribe the source patterns. -/

/-- Literal string. -/
def lit (str : String) : Re := (str.data.map Re.ch).foldr Re.seq Re.eps

/-- Sequence of regexes. -/
def rseq (l : List Re) : Re := l.foldr Re.seq Re.eps

/-- `x+` (one or more), with greediness flag. -/
def rplus (g : Bool) (a : Re) : Re := .seq a (.star g a)

/-- `[0-9]`. -/
def digitC : Re := .cls false [] [('0', '9')]

/-- `[0-9]+`. -/
def digits1 : Re := rplus true digitC

/-- `[0-9.]`. -/
def digitDotC : Re := .cls false ['.'] [('0', '9')]

/-- `[a-zA-Z0-9_]`. -/
def wordC : Re := .cls false ['_'] [('a', 'z'), ('A', 'Z'), ('0', '9')]

/-- Go's `\s` class: `[\t\n\f\r ]`. -/
def wspC : Re := .cls false ['\t', '\n', '\x0c', '\x0d', ' '] []

/-- `[0-9a-f]`. -/
def hexC : Re := .cls false [] [('0', '9'), ('a', 'f')]

/-- `([0-9]+\.[0-9]+)` — the timestamp shape of the file-tracing patterns. -/
def tsRe : Re := rseq [digits1, .ch '.', digits1]

/-- The tail `(?:\s*$|x[0-9a-f]+$|<.*>$|$)` shared by `fdAndPathRE`/`fdRE`. -/
def tailFd : Re :=
  .alt (.seq (.star true wspC) .endAnchor)
    (.alt (rseq [.ch 'x', rplus true hexC, .endAnchor])
      (.alt (rseq [.ch '<', .star true .anyc, .ch '>', .endAnchor]) .endAnchor))

/-- The tail `(?:\s*$|x[0-9a-f]+$|<\/.*>$|$)` of `absPathWithCWDRE`. -/
def tailCwd : Re :=
  .alt (.seq (.star true wspC) .endAnchor)
    (.alt (rseq [.ch 'x', rplus true hexC, .endAnchor])
      (.alt (rseq [.ch '<', .ch '/', .star true .anyc, .ch '>', .endAnchor]) .endAnchor))

/-- The tail `(?:\s*$|x[0-9a-f]+$|<.*>$)` of `absPathRE`/`absPathFirstRE`
(no bare `$` alternative). -/
def tailAbs : Re :=
  .alt (.seq (.star true wspC) .endAnchor)
    (.alt (rseq [.ch 'x', rplus true hexC, .endAnchor])
      (rseq [.ch '<', .star true .anyc, .ch '>', .endAnchor]))

/-- The exec-timing source: `([0-9]+)\ +([0-9.]+) execve\(\"([^"]+)\".*\) = 0`. -/
def execveRE : Regex :=
  ⟨false, 3, rseq [.group 1 digits1, rplus true (.ch ' '),
    .group 2 (rplus true digitDotC), lit " execve(\"",
    .group 3 (rplus true (.cls true ['"'] [])), .ch '"',
    .star true .anyc, lit ") = 0"]⟩

/-- The exec-timing source: `([0-9]+)\ +([0-9.]+) execveat\(.*\["([^"]+)".*\) = 0`. -/
def execveatRE : Regex :=
  ⟨false, 3, rseq [.group 1 digits1, rplus true (.ch ' '),
    .group 2 (rplus true digitDotC), lit " execveat(",
    .star true .anyc, lit "[\"",
    .group 3 (rplus true (.cls true ['"'] [])), .ch '"',
    .star true .anyc, lit ") = 0"]⟩

/-- The exec-timing source: `[0-9]+\ +([0-9.]+).*SIG(CHLD|TERM)\ {.*si_pid=([0-9]+),`. -/
def sigChldTermRE : Regex :=
  ⟨false, 3, rseq [digits1, rplus true (.ch ' '),
    .group 1 (rplus true digitDotC), .star true .anyc, lit "SIG",
    .group 2 (.alt (lit "CHLD") (lit "TERM")), lit " \x7b",
    .star true .anyc, lit "si_pid=", .group 3 digits1, .ch ',']⟩

/-- The exec-timing source: `([0-9]+)\ +([0-9.]+) \+\+\+ killed by SIGKILL \+\+\+`. -/
def sigkillRE : Regex :=
  ⟨false, 2, rseq [.group 1 digits1, rplus true (.ch ' '),
    .group 2 (rplus true digitDotC), lit " +++ killed by SIGKILL +++"]⟩

/-- The file-tracing source:
`([0-9]+) ([0-9]+\.[0-9]+) (.*)\([0-9]+<(\/.*?)>, "([^\/\"]?[^\"]+)".*= [0-9]+(?:\s*$|x[0-9a-f]+$|<.*>$|$)`. -/
def fdAndPathRE : Regex :=
  ⟨false, 5, rseq [.group 1 digits1, .ch ' ', .group 2 tsRe, .ch ' ',
    .group 3 (.star true .anyc), .ch '(', digits1, .ch '<',
    .group 4 (.seq (.ch '/') (.star false .anyc)), lit ">, \"",
    .group 5 (.seq (.opt true (.cls true ['/', '"'] [])) (rplus true (.cls true ['"'] []))),
    .ch '"', .star true .anyc, lit "= ", digits1, tailFd]⟩

/-- The file-tracing source:
`([0-9]+) ([0-9]+\.[0-9]+) ([a-zA-Z0-9_]+)\(AT_FDCWD,\s+\"(.*?)\".*=\s+[0-9]+(?:\s*$|x[0-9a-f]+$|<\/.*>$|$)`. -/
def absPathWithCWDRE : Regex :=
  ⟨false, 4, rseq [.group 1 digits1, .ch ' ', .group 2 tsRe, .ch ' ',
    .group 3 (rplus true wordC), lit "(AT_FDCWD,", rplus true wspC, .ch '"',
    .group 4 (.star false .anyc), .ch '"', .star true .anyc, .ch '=',
    rplus true wspC, digits1, tailCwd]⟩

/-- The file-tracing source:
`^([0-9]+) ([0-9]+\.[0-9]+) ([a-zA-Z0-9_]+)\([^\"]+\"([^\"].+?)\".*?\) =\s+[0-9]+(?:\s*$|x[0-9a-f]+$|<.*>$)`. -/
def absPathRE : Regex :=
  ⟨true, 4, rseq [.group 1 digits1, .ch ' ', .group 2 tsRe, .ch ' ',
    .group 3 (rplus true wordC), .ch '(', rplus true (.cls true ['"'] []), .ch '"',
    .group 4 (rseq [.cls true ['"'] [], .anyc, .star false .anyc]), .ch '"',
    .star false .anyc, lit ") =", rplus true wspC, digits1, tailAbs]⟩

/-- The file-tracing source:
`^([0-9]+) ([0-9]+\.[0-9]+) ([a-zA-Z0-9_]+)\(\"([^\"].+?)\".*?\) =\s+[0-9]+(?:\s*$|x[0-9a-f]+$|<.*>$)`. -/
def absPathFirstRE : Regex :=
  ⟨true, 4, rseq [.group 1 digits1, .ch ' ', .group 2 tsRe, .ch ' ',
    .group 3 (rplus true wordC), lit "(\"",
    .group 4 (rseq [.cls true ['"'] [], .anyc, .star false .anyc]), .ch '"',
    .star false .anyc, lit ") =", rplus true wspC, digits1, tailAbs]⟩

/-- The file-tracing source:
`([0-9]+)\s+([0-9]+\.[0-9]+)\s+(.*)\(.*[0-9]+<(\/.*?)>.*= [0-9]+(?:\s*$|x[0-9a-f]+$|<.*>$|$)`. -/
def fdRE : Regex :=
  ⟨false, 4, rseq [.group 1 digits1, rplus true wspC, .group 2 tsRe, rplus true wspC,
    .group 3 (.star true .anyc), .ch '(', .star true .anyc, digits1, .ch '<',
    .group 4 (.seq (.ch '/') (.star false .anyc)), .ch '>',
    .star true .anyc, lit "= ", digits1, tailFd]⟩

/-! ## Number and string scanning helpers

Batteries marks `Rat.add`/`Rat.sub`/`Rat.neg` `@[irreducible]`, which blocks
the evaluation of concrete instances by `decide`.  The model therefore
computes with the `mkRat` normal forms below, which are provably equal to
the standard operations (`qAdd_eq`, `qSub_eq`, `qNeg_eq`). -/

/-- Computable addition on `ℚ`; equals `a + b` by `qAdd_eq`. -/
def qAdd (a b : ℚ) : ℚ := mkRat (a.num * b.den + b.num * a.den) (a.den * b.den)

/-- Computable subtraction on `ℚ`; equals `a - b` by `qSub_eq`. -/
def qSub (a b : ℚ) : ℚ := mkRat (a.num * b.den - b.num * a.den) (a.den * b.den)

/-- Value of a list of decimal digit characters. -/
def digitsVal (l : List Char) : Nat :=
  l.foldl (fun a c => a * 10 + (c.toNat - 48)) 0

/-- Model of `strconv.ParseFloat` restricted to the plain decimal tokens the
regex captures can produce (`[0-9.]+`): digits with at most one dot and at
least one digit; the value is kept exact instead of being rounded to a
`float64`. -/
def parseDecimal (s : String) : Option ℚ :=
  match s.data.splitOn '.' with
  | [a] => if (!a.isEmpty) && a.all (·.isDigit) then some (mkRat (digitsVal a) 1) else none
  | [a, b] =>
    if (!(a.isEmpty && b.isEmpty)) && a.all (·.isDigit) && b.all (·.isDigit) then
      some (qAdd (mkRat (digitsVal a) 1) (mkRat (digitsVal b) (10 ^ b.length)))
    else none
  | _ => none

/-- Whitespace skipped by `fmt.Sscanf` between items. -/
def isScanSpace (c : Char) : Bool :=
  c = ' ' || c = '\t' || c = '\n' || c = '\x0b' || c = '\x0c' || c = '\x0d'

/-- Model of `fmt.Sscanf(line, "%d %f", &pid, &t)` (also used for the
`"%v %f"` end-of-log scan, identical for integer targets): skip spaces, scan
a decimal `int` (64-bit, overflow is an error), skip spaces, scan a decimal
float.  Returns `none` when either item fails to scan. -/
def scanPidTime (s : String) : Option (Int × ℚ) :=
  let cs := (s.data).dropWhile isScanSpace
  let (neg, cs) := match cs with
    | '-' :: r => (true, r)
    | '+' :: r => (false, r)
    | r => (false, r)
  let ds := cs.takeWhile (·.isDigit)
  let cs := cs.dropWhile (·.isDigit)
  if ds.isEmpty then none
  else
    let n : Int := (if neg then -1 else 1) * (digitsVal ds : Int)
    if n > 2 ^ 63 - 1 ∨ n < -(2 ^ 63) then none
    else
      let cs := cs.dropWhile isScanSpace
      let (neg2, cs) := match cs with
        | '-' :: r => (true, r)
        | '+' :: r => (false, r)
        | r => (false, r)
      let ip := cs.takeWhile (·.isDigit)
      let cs := cs.dropWhile (·.isDigit)
      let fp := match cs with
        | '.' :: r => r.takeWhile (·.isDigit)
        | _ => []
      if ip.isEmpty && fp.isEmpty then none
      else
        let v : ℚ := qAdd (mkRat (digitsVal ip) 1) (mkRat (digitsVal fp) (10 ^ fp.length))
        some (n, if neg2 then mkRat (-v.num) v.den else v)

/-- Model of `strings.HasSuffix`. -/
def strHasSuffix (s suf : String) : Bool := suf.data.isSuffixOf s.data

/-- Model of `strings.TrimSuffix`: drop one occurrence of `suf` when present,
otherwise return `s` unchanged. -/
def trimSuffixStr (s suf : String) : String :=
  if strHasSuffix s suf then String.mk (s.data.take (s.data.length - suf.data.length)) else s

/-- Segment-level model of `filepath.Clean` for slash-separated paths:
collapse repeated separators, drop `.` components, resolve `..`. -/
def cleanPath (p : String) : String :=
  if p = "" then "." else
  let rooted := p.data.head? = some '/'
  let comps := ((p.data.splitOn '/').map String.mk).filter (fun c => c ≠ "" && c ≠ ".")
  let stack := comps.foldl
    (fun (acc : List String) c =>
      if c = ".." then
        match acc with
        | [] => if rooted then [] else [".."]
        | top :: rest => if top = ".." then c :: acc else rest
      else c :: acc) []
  let comps2 := stack.reverse
  if comps2.isEmpty then (if rooted then "/" else ".")
  else (if rooted then "/" else "") ++ String.intercalate "/" comps2

/-- Model of `filepath.Join` for the two-argument uses in the source: empty
elements are skipped and the slash-joined result is cleaned. -/
def filepathJoin (a b : String) : String :=
  if a = "" && b = "" then ""
  else if a = "" then cleanPath b
  else if b = "" then cleanPath a
  else cleanPath (a ++ "/" ++ b)

/-! ## Failure outcomes

The parse entry points of the source return a single `error` to their caller;
`unixFloatSecondsToTime` instead panics when a timestamp is outside the
`int64` range.  `Failure` has one constructor per typed-error shape and the
distinguished `panicked` outcome for the panic, so the distinction between a
returned error and a crash stays visible in every theorem. -/

inductive Failure where
  /-- `cannot parse start of exec profile: ...` (the offending line). -/
  | startParse : String → Failure
  /-- `cannot parse end of exec profile: ...` (the offending line). -/
  | endParse : String → Failure
  /-- A `strconv.ParseFloat` error propagated out of a match handler. -/
  | floatParse : String → Failure
  /-- `internal error: pattern %q is invalid` from `filepath.Match`. -/
  | globBad : String → Failure
  /-- Not an error return: models the Go panic raised by
  `unixFloatSecondsToTime` when the timestamp is outside the `int64` range. -/
  | panicked : ℚ → Failure
deriving DecidableEq

/-- Model of `unixFloatSecondsToTime`: the identity on in-range rational
times; out-of-range times panic (`Failure.panicked`).  The Go bound checks
compare against `float64(math.MaxInt64) = 2^63` and
`float64(math.MinInt64) = -2^63`. -/
def unixFloatSecondsToTime (t : ℚ) : Except Failure ℚ :=
  if t > mkRat (2 ^ 63) 1 ∨ t < mkRat (-(2 ^ 63)) 1 then .error (.panicked t) else .ok t

/-! ## The pid tracker (`pidTracker`) -/

/-- One live entry: image start time and executable (`exeStart`). -/
structure ExeStart where
  start : ℚ
  exe : String
deriving DecidableEq

/-- The `map[string]exeStart` of `pidTracker`, as an association list. -/
abbrev PidTracker := List (String × ExeStart)

/-- `pidTracker.getPid`: the zero values `(0, "")` signal an absent entry. -/
def getPid (pt : PidTracker) (pid : String) : ℚ × String :=
  match pt.find? (fun e => e.1 = pid) with
  | some e => (e.2.start, e.2.exe)
  | none => (0, "")

/-- `pidTracker.addPid`: map insert/overwrite. -/
def addPid (pt : PidTracker) (pid : String) (startTime : ℚ) (exe : String) : PidTracker :=
  if pt.any (fun e => e.1 = pid) then
    pt.map (fun e => if e.1 = pid then (pid, ⟨startTime, exe⟩) else e)
  else pt ++ [(pid, ⟨startTime, exe⟩)]

/-- `pidTracker.deletePid`: map delete. -/
def deletePid (pt : PidTracker) (pid : String) : PidTracker :=
  pt.filter (fun e => !(e.1 = pid : Bool))

/-! ## The execution timing accumulator (`ExecveTiming`) -/

/-- `ExeRuntime`: the runtime of an individual executable.  `start` is the
converted `time.Time` (an in-range rational), `totalSec` the duration in
(exact) seconds. -/
structure ExeRuntime where
  start : ℚ
  exe : String
  totalSec : ℚ
  pid : String
deriving DecidableEq

instance : Inhabited ExeRuntime := ⟨⟨0, "", 0, ""⟩⟩

/-- `ExecveTiming` with its embedded `pidTracker`. -/
structure ExecveTiming where
  totalTime : ℚ
  exeRuntimes : List ExeRuntime
  nSlowestSamples : Nat
  tracker : PidTracker
deriving DecidableEq

/-- `newExecveTiming`. -/
def newExecveTiming (nSlowestSamples : Nat) : ExecveTiming :=
  ⟨0, [], nSlowestSamples, []⟩

/-- The inner scan of `prune`: `fastest := 0; for idx, rt := range rts { if
rt.TotalSec < rts[fastest].TotalSec { fastest = idx } }`. -/
def fastestIdx (l : List ExeRuntime) : Nat :=
  (List.range l.length).foldl
    (fun fastest idx =>
      if (l.getD idx default).totalSec < (l.getD fastest default).totalSec then idx
      else fastest) 0

/-- The `while` loop of `ExecveTiming.prune`, with an explicit iteration
budget: every firing of the guard removes exactly one element, so a budget
equal to the initial list length makes the fueled loop identical to the
unbounded `while len(rts) > n` loop of the source. -/
def pruneFuel : Nat → Nat → List ExeRuntime → List ExeRuntime
  | 0, _, l => l
  | fuel + 1, nSlowestSamples, l =>
    if l.length > nSlowestSamples then
      pruneFuel fuel nSlowestSamples (l.eraseIdx (fastestIdx l))
    else l

/-- `ExecveTiming.prune`: while the list is longer than `nSlowestSamples`,
delete the element found by the linear minimum scan. -/
def prune (nSlowestSamples : Nat) (l : List ExeRuntime) : List ExeRuntime :=
  pruneFuel l.length nSlowestSamples l

/-- `ExecveTiming.addExeRuntime`: append the sample (possibly panicking in
the time conversion), then prune when a cap is set.  The Go truncation of
`totalSec * float64(time.Second)` to a `time.Duration` is kept exact. -/
def addExeRuntime (stt : ExecveTiming) (start : ℚ) (exe : String) (totalSec : ℚ)
    (pid : String) : Except Failure ExecveTiming :=
  match unixFloatSecondsToTime start with
  | .error e => .error e
  | .ok st =>
    let l := stt.exeRuntimes ++ [⟨st, exe, totalSec, pid⟩]
    .ok { stt with
      exeRuntimes := if stt.nSlowestSamples > 0 then prune stt.nSlowestSamples l else l }

/-- `parsePIDAndReturnOthers`: `match[1]` is the pid, `match[2]` the time,
`match[3]` the exe (exec matches) or syscall name (file matches). -/
def parsePIDAndReturnOthers (m : List String) : Except Failure (String × ℚ × String) :=
  match parseDecimal (m.getD 2 "") with
  | none => .error (.floatParse (m.getD 2 ""))
  | some t => .ok (m.getD 1 "", t, m.getD 3 "")

/-- `handleExecMatch` for the timing tracer: close any live entry for the
pid, then (re)open the live entry with the new image. -/
def handleExecMatch (trace : ExecveTiming) (m : List String) : Except Failure ExecveTiming :=
  if m.isEmpty then .ok trace
  else
    match parsePIDAndReturnOthers m with
    | .error e => .error e
    | .ok (pid, execStart, exe) =>
      let res :=
        match getPid trace.tracker pid with
        | (start, exe0) =>
          if exe0 ≠ "" then addExeRuntime trace start exe0 (qSub execStart start) pid
          else .ok trace
      match res with
      | .error e => .error e
      | .ok trace => .ok { trace with tracker := addPid trace.tracker pid execStart exe }

/-- `handleSignalMatch`: close the live entry of `si_pid` at the signal
time; a pid with no live entry is a no-op. -/
def handleSignalMatch (trace : ExecveTiming) (m : List String) : Except Failure ExecveTiming :=
  if m.isEmpty then .ok trace
  else
    match parseDecimal (m.getD 1 "") with
    | none => .error (.floatParse (m.getD 1 ""))
    | some sigTime =>
      let sigPid := m.getD 3 ""
      match getPid trace.tracker sigPid with
      | (start, exe) =>
        if exe ≠ "" then
          match addExeRuntime trace start exe (qSub sigTime start) sigPid with
          | .error e => .error e
          | .ok trace => .ok { trace with tracker := deletePid trace.tracker sigPid }
        else .ok trace

/-- `handleSigkillMatch`: close the live entry of the killed pid. -/
def handleSigkillMatch (trace : ExecveTiming) (m : List String) : Except Failure ExecveTiming :=
  if m.isEmpty then .ok trace
  else
    match parseDecimal (m.getD 2 "") with
    | none => .error (.floatParse (m.getD 2 ""))
    | some sigTime =>
      let pid := m.getD 1 ""
      match getPid trace.tracker pid with
      | (start, exe) =>
        if exe ≠ "" then
          match addExeRuntime trace start exe (qSub sigTime start) pid with
          | .error e => .error e
          | .ok trace => .ok { trace with tracker := deletePid trace.tracker pid }
        else .ok trace

/-- The scan loop of `TraceExecveTimings`: remembers the last line, parses
the session start from the first line whose scan succeeds while `start` is
still `0.0`, and feeds every line through the four matchers. -/
def traceLoop : List String → String → ℚ → Int → ExecveTiming →
    Except Failure (String × ℚ × Int × ExecveTiming)
  | [], line, start, startPID, trace => .ok (line, start, startPID, trace)
  | l :: rest, _, start, startPID, trace =>
    let hdr : Except Failure (Int × ℚ) :=
      if start = 0 then
        match scanPidTime l with
        | none => .error (.startParse l)
        | some ps => .ok ps
      else .ok (startPID, start)
    match hdr with
    | .error e => .error e
    | .ok (startPID, start) =>
      match handleExecMatch trace (findStringSubmatch execveRE l) with
      | .error e => .error e
      | .ok trace =>
        match handleExecMatch trace (findStringSubmatch execveatRE l) with
        | .error e => .error e
        | .ok trace =>
          match handleSignalMatch trace (findStringSubmatch sigChldTermRE l) with
          | .error e => .error e
          | .ok trace =>
            match handleSigkillMatch trace (findStringSubmatch sigkillRE l) with
            | .error e => .error e
            | .ok trace => traceLoop rest l start startPID trace

/-- `TraceExecveTimings` over the list of log lines (the file/IO layer is
outside the model): scan all lines, parse the end of the session from the
last line seen, close the start pid's entry when the log starts and ends
with the same pid, and compute the total time. -/
def traceExecveTimings (lines : List String) (nSlowest : Nat) :
    Except Failure ExecveTiming :=
  match traceLoop lines "" 0 0 (newExecveTiming nSlowest) with
  | .error e => .error e
  | .ok (line, start, startPID, trace) =>
    match scanPidTime line with
    | none => .error (.endParse line)
    | some (endPID, endT) =>
      let closed : Except Failure ExecveTiming :=
        if startPID = endPID then
          let pidString := toString startPID
          match getPid trace.tracker pidString with
          | (st, exe) =>
            if exe ≠ "" then
              match addExeRuntime trace st exe (qSub endT st) pidString with
              | .error e => .error e
              | .ok t => .ok { t with tracker := deletePid t.tracker pidString }
            else .ok trace
        else .ok trace
      match closed with
      | .error e => .error e
      | .ok trace =>
        match unixFloatSecondsToTime endT with
        | .error e => .error e
        | .ok e' =>
          match unixFloatSecondsToTime start with
          | .error e => .error e
          | .ok s' => .ok { trace with totalTime := qSub e' s' }

/-! ## The file-access tracing model (`ExecvePaths`) -/

/-- `PathAccess`: a single syscall accessing a file. -/
structure PathAccess where
  time : ℚ
  path : String
  syscall : String
  pid : String
deriving DecidableEq

/-- `ProcessRuntime`: a single program and its file accesses. -/
structure ProcessRuntime where
  start : ℚ
  exe : String
  runDuration : ℚ
  pathAccesses : List PathAccess
  pid : String
deriving DecidableEq

/-- `CommonFileInfo`: the reported path/size/program triple; the unexported
`pid` takes part in duplicate detection. -/
structure CommonFileInfo where
  path : String
  size : Int
  program : String
  pid : String
deriving DecidableEq

/-- `ExecvePaths` (only the fields the modelled phases use). -/
structure ExecvePaths where
  allFiles : List CommonFileInfo
  processes : List ProcessRuntime
  totalTime : ℚ
  tracker : PidTracker
  pathProcesses : List PathAccess
deriving DecidableEq

/-- `newExecveFiles`. -/
def newExecveFiles : ExecvePaths := ⟨[], [], 0, [], []⟩

/-- `ExecvePaths.addExeRuntime`: append a completed `ProcessRuntime`. -/
def ExecvePaths.addExeRuntime (e : ExecvePaths) (start : ℚ) (exe : String)
    (totalSec : ℚ) (pid : String) : Except Failure ExecvePaths :=
  match unixFloatSecondsToTime start with
  | .error err => .error err
  | .ok st => .ok { e with processes := e.processes ++ [⟨st, exe, totalSec, [], pid⟩] }

/-- `ExecvePaths.addProcessPathAccess`: save a raw path access for the later
correlation pass. -/
def addProcessPathAccess (e : ExecvePaths) (pa : PathAccess) : ExecvePaths :=
  { e with pathProcesses := e.pathProcesses ++ [pa] }

/-- `handlePathMatchElem4`: record `match[4]` as the accessed path, trimming
the deleted-file marker: when the path ends in `"(deleted)"` the suffix
`" (deleted)"` is trimmed. -/
def handlePathMatchElem4 (trace : ExecvePaths) (m : List String) :
    Except Failure (Bool × ExecvePaths) :=
  if m.isEmpty then .ok (false, trace)
  else
    match parsePIDAndReturnOthers m with
    | .error e => .error e
    | .ok (pid, execStart, syscall) =>
      let m4 := m.getD 4 ""
      let m4 := if strHasSuffix m4 "(deleted)" then trimSuffixStr m4 " (deleted)" else m4
      match unixFloatSecondsToTime execStart with
      | .error e => .error e
      | .ok t => .ok (true, addProcessPathAccess trace ⟨t, m4, syscall, pid⟩)

/-- `handleFdAndPathMatch`: join the fd's directory (`match[4]`) with the
relative path argument (`match[5]`), trim the deleted-file marker, record. -/
def handleFdAndPathMatch (trace : ExecvePaths) (m : List String) :
    Except Failure (Bool × ExecvePaths) :=
  if m.isEmpty then .ok (false, trace)
  else
    match parsePIDAndReturnOthers m with
    | .error e => .error e
    | .ok (pid, execStart, syscall) =>
      let fullPath := filepathJoin (m.getD 4 "") (m.getD 5 "")
      let fullPath :=
        if strHasSuffix fullPath "(deleted)" then trimSuffixStr fullPath " (deleted)"
        else fullPath
      match unixFloatSecondsToTime execStart with
      | .error e => .error e
      | .ok t => .ok (true, addProcessPathAccess trace ⟨t, fullPath, syscall, pid⟩)

/-- `handleAbsPathMatch`: record `match[4]` as the accessed path, verbatim
(this handler performs no deleted-marker trimming). -/
def handleAbsPathMatch (trace : ExecvePaths) (_line : String) (m : List String) :
    Except Failure (Bool × ExecvePaths) :=
  if m.isEmpty then .ok (false, trace)
  else
    match parsePIDAndReturnOthers m with
    | .error e => .error e
    | .ok (pid, execStart, syscall) =>
      match unixFloatSecondsToTime execStart with
      | .error e => .error e
      | .ok t => .ok (true, addProcessPathAccess trace ⟨t, m.getD 4 "", syscall, pid⟩)

/-- The path-matcher dispatch of the scan loop of `TraceExecveWithFiles`
(the `// now handle any file access matches` block): the five matchers are
tried in source order — `fdAndPathRE`, `fdRE`, `absPathWithCWDRE`,
`absPathRE`, `absPathFirstRE` — and the first successful handler claims the
line (`continue`). -/
def processPathMatchers (trace : ExecvePaths) (line : String) :
    Except Failure ExecvePaths :=
  match handleFdAndPathMatch trace (findStringSubmatch fdAndPathRE line) with
  | .error e => .error e
  | .ok (matched, trace) =>
    if matched then .ok trace
    else
      match handlePathMatchElem4 trace (findStringSubmatch fdRE line) with
      | .error e => .error e
      | .ok (matched, trace) =>
        if matched then .ok trace
        else
          match handlePathMatchElem4 trace (findStringSubmatch absPathWithCWDRE line) with
          | .error e => .error e
          | .ok (matched, trace) =>
            if matched then .ok trace
            else
              match handleAbsPathMatch trace line (findStringSubmatch absPathRE line) with
              | .error e => .error e
              | .ok (matched, trace) =>
                if matched then .ok trace
                else
                  match handleAbsPathMatch trace line (findStringSubmatch absPathFirstRE line) with
                  | .error e => .error e
                  | .ok (_, trace) => .ok trace

/-- One step of the correlation pass of `TraceExecveWithFiles`: scan the
processes in order for the first one whose pid equals the access's pid and
whose lifetime interval contains the access time — the containment test is
`path.Time.After(start) && path.Time.Before(end)`, strict on both sides —
attach the access there and stop. -/
def attachPathAccess : List ProcessRuntime → PathAccess → List ProcessRuntime
  | [], _ => []
  | proc :: rest, pa =>
    if proc.pid = pa.pid ∧ proc.start < pa.time ∧ pa.time < qAdd proc.start proc.runDuration then
      { proc with pathAccesses := proc.pathAccesses ++ [pa] } :: rest
    else proc :: attachPathAccess rest pa

/-- The correlation pass: distribute every saved raw path access over the
completed processes, then drop the raw list. -/
def correlate (t : ExecvePaths) : ExecvePaths :=
  { t with
    processes := t.pathProcesses.foldl attachPathAccess t.processes
    pathProcesses := [] }

/-- The duplicate-detection key used by the report builder: the
`CommonFileInfo` value before its `Size` is set, i.e. `(path, program, pid)`
with `size` still `0`. -/
def fileKey (path program pid : String) : CommonFileInfo := ⟨path, 0, program, pid⟩

/-- The exclude-list scan of the report builder: `filepath.Match` each
pattern against the program, stopping at the first match; an invalid pattern
is a fatal error.  Glob matching itself is a parameter. -/
def checkExcluded (globMatch : String → String → Except String Bool) :
    List String → String → Except Failure Bool
  | [], _ => .ok false
  | pat :: rest, exe =>
    match globMatch pat exe with
    | .error _ => .error (.globBad pat)
    | .ok true => .ok true
    | .ok false => checkExcluded globMatch rest exe

/-- The body of the report-building loop of `TraceExecveWithFiles` for one
path access of one process: path filter, program filter, exclude globs,
seen-set check on the `(path, program, pid)` key, stat for the size, append.
`fileOK`/`progOK` model `fileRegex.FindString(x) != ""` and
`programRegex.FindString(x) != ""`; `statSize` models `os.Stat` (`none` for
a failed stat, reported as size `-1`). -/
def buildFromAccess (fileOK progOK : String → Bool)
    (excl : List String) (globMatch : String → String → Except String Bool)
    (statSize : String → Option Int) (proc : ProcessRuntime)
    (acc : List CommonFileInfo × List CommonFileInfo) (pa : PathAccess) :
    Except Failure (List CommonFileInfo × List CommonFileInfo) :=
  if !fileOK pa.path then .ok acc
  else if !progOK proc.exe then .ok acc
  else
    match checkExcluded globMatch excl proc.exe with
    | .error e => .error e
    | .ok true => .ok acc
    | .ok false =>
      let (seen, out) := acc
      let fi := fileKey pa.path proc.exe proc.pid
      if seen.contains fi then .ok acc
      else
        let size : Int := match statSize pa.path with
          | some s => s
          | none => -1
        .ok (seen ++ [fi], out ++ [{ fi with size := size }])

/-- Byte-wise lexicographic comparison of strings (Go `<`/`<=` on strings),
over the character lists. -/
def charListLe : List Char → List Char → Bool
  | [], _ => true
  | _ :: _, [] => false
  | a :: as, b :: bs => if a < b then true else if b < a then false else charListLe as bs

/-- Insertion step of the by-path sort of the final report.  The source
sorts with `sort.Slice(..., AllFiles[i].Path < AllFiles[j].Path)`, which
fixes only the by-path order; an insertion sort models it. -/
def insertByPath (a : CommonFileInfo) : List CommonFileInfo → List CommonFileInfo
  | [] => [a]
  | b :: l => if charListLe a.path.data b.path.data then a :: b :: l else b :: insertByPath a l

/-- By-path sort of the final report list. -/
def sortByPath (l : List CommonFileInfo) : List CommonFileInfo :=
  l.foldr insertByPath []

/-- The report-building phase of `TraceExecveWithFiles` (after correlation):
walk every process's accesses in order, build the deduplicated file list,
and sort it by path. -/
def buildAllFiles (fileOK progOK : String → Bool)
    (excl : List String) (globMatch : String → String → Except String Bool)
    (statSize : String → Option Int) (procs : List ProcessRuntime) :
    Except Failure (List CommonFileInfo) :=
  match procs.foldlM
      (fun acc proc =>
        proc.pathAccesses.foldlM (buildFromAccess fileOK progOK excl globMatch statSize proc) acc)
      (([], []) : List CommonFileInfo × List CommonFileInfo) with
  | .error e => .error e
  | .ok (_, out) => .ok (sortByPath out)

/-! ## Auxiliary definitions used by the theorems -/

instance instDecEqExcept {ε α : Type _} [DecidableEq ε] [DecidableEq α] :
    DecidableEq (Except ε α) :=
  fun x y =>
    match x, y with
    | .error a, .error b =>
      if h : a = b then .isTrue (by rw [h]) else .isFalse (fun hh => by cases hh; exact h rfl)
    | .ok a, .ok b =>
      if h : a = b then .isTrue (by rw [h]) else .isFalse (fun hh => by cases hh; exact h rfl)
    | .error _, .ok _ => .isFalse (fun hh => by cases hh)
    | .ok _, .error _ => .isFalse (fun hh => by cases hh)

/-- A timestamp inside the `int64` float bounds, where `unixFloatSecondsToTime`
does not panic. -/
def TimeInRange (t : ℚ) : Prop :=
  ¬(t > mkRat (2 ^ 63) 1 ∨ t < mkRat (-(2 ^ 63)) 1)

instance (t : ℚ) : Decidable (TimeInRange t) := by
  unfold TimeInRange
  infer_instance

/-- Driving a fresh timing accumulator with cap `K` through a sequence of
`addExeRuntime` insertions (the harness of the bounded-retention claims). -/
def insertAll (K : Nat) (recs : List ExeRuntime) : Except Failure ExecveTiming :=
  recs.foldlM (fun stt r => addExeRuntime stt r.start r.exe r.totalSec r.pid)
    (newExecveTiming K)

/-- The pure effect of one `addExeRuntime` call on the retained list. -/
def pruneStep (K : Nat) (l : List ExeRuntime) (r : ExeRuntime) : List ExeRuntime :=
  if 0 < K then prune K (l ++ [r]) else l ++ [r]

/-- Modelled from the spec (amended order): the first of the five path
matchers — tried in the source order `fdAndPathRE`, `fdRE`,
`absPathWithCWDRE`, `absPathRE`, `absPathFirstRE` — that claims the line,
together with the event it extracts; `none` when no matcher claims the
line.  `processPathMatchers` is proved equal to dispatching on this
function, which shows each line contributes at most one path event. -/
def firstPathEvent (line : String) : Except Failure (Option PathAccess) :=
  let m1 := findStringSubmatch fdAndPathRE line
  if !m1.isEmpty then
    match parsePIDAndReturnOthers m1 with
    | .error e => .error e
    | .ok (pid, execStart, syscall) =>
      let p := filepathJoin (m1.getD 4 "") (m1.getD 5 "")
      let p := if strHasSuffix p "(deleted)" then trimSuffixStr p " (deleted)" else p
      match unixFloatSecondsToTime execStart with
      | .error e => .error e
      | .ok t => .ok (some ⟨t, p, syscall, pid⟩)
  else
    let m2 := findStringSubmatch fdRE line
    if !m2.isEmpty then
      match parsePIDAndReturnOthers m2 with
      | .error e => .error e
      | .ok (pid, execStart, syscall) =>
        let p := m2.getD 4 ""
        let p := if strHasSuffix p "(deleted)" then trimSuffixStr p " (deleted)" else p
        match unixFloatSecondsToTime execStart with
        | .error e => .error e
        | .ok t => .ok (some ⟨t, p, syscall, pid⟩)
    else
      let m3 := findStringSubmatch absPathWithCWDRE line
      if !m3.isEmpty then
        match parsePIDAndReturnOthers m3 with
        | .error e => .error e
        | .ok (pid, execStart, syscall) =>
          let p := m3.getD 4 ""
          let p := if strHasSuffix p "(deleted)" then trimSuffixStr p " (deleted)" else p
          match unixFloatSecondsToTime execStart with
          | .error e => .error e
          | .ok t => .ok (some ⟨t, p, syscall, pid⟩)
      else
        let m4 := findStringSubmatch absPathRE line
        if !m4.isEmpty then
          match parsePIDAndReturnOthers m4 with
          | .error e => .error e
          | .ok (pid, execStart, syscall) =>
            match unixFloatSecondsToTime execStart with
            | .error e => .error e
            | .ok t => .ok (some ⟨t, m4.getD 4 "", syscall, pid⟩)
        else
          let m5 := findStringSubmatch absPathFirstRE line
          if !m5.isEmpty then
            match parsePIDAndReturnOthers m5 with
            | .error e => .error e
            | .ok (pid, execStart, syscall) =>
              match unixFloatSecondsToTime execStart with
              | .error e => .error e
              | .ok t => .ok (some ⟨t, m5.getD 4 "", syscall, pid⟩)
          else .ok none

/-- The retained list is exactly the top `K` of the inserted records:
it is an (order-preserving) sublist of the inserted records, it has the
expected size, and every record not retained has a strictly smaller
duration than every retained one. -/
def IsTopK (K : Nat) (done cur : List ExeRuntime) : Prop :=
  cur.Sublist done ∧ cur.length = min done.length K ∧
  ∀ y ∈ done, y ∉ cur → ∀ x ∈ cur, y.totalSec < x.totalSec

/-- Entries whose `(path, program, pid)` triples differ (the duplicate
relation of the report builder). -/
def DistinctKey (x y : CommonFileInfo) : Prop :=
  ¬(x.path = y.path ∧ x.program = y.program ∧ x.pid = y.pid)

/-- Invariant of the report-building fold: every produced entry's key is in
the seen set, and the produced entries have pairwise distinct keys. -/
def BuildInv (st : List CommonFileInfo × List CommonFileInfo) : Prop :=
  (∀ x ∈ st.2, fileKey x.path x.program x.pid ∈ st.1) ∧ st.2.Pairwise DistinctKey

set_option maxRecDepth 100000

/-! ## Step lemmas for the tracker handlers -/

theorem qAdd_eq (a b : ℚ) : qAdd a b = a + b := (Rat.add_def' a b).symm

theorem qSub_eq (a b : ℚ) : qSub a b = a - b := (Rat.sub_def' a b).symm

theorem unixFloat_ok {t : ℚ} (h : TimeInRange t) :
    unixFloatSecondsToTime t = .ok t := by
  unfold unixFloatSecondsToTime
  rw [if_neg h]

theorem pruneFuel_of_le (f K : Nat) (l : List ExeRuntime) (h : l.length ≤ K) :
    pruneFuel f K l = l := by
  cases f with
  | zero => rfl
  | succ f =>
    simp only [pruneFuel]
    rw [if_neg (by omega)]

theorem prune_of_le (K : Nat) (l : List ExeRuntime) (h : l.length ≤ K) :
    prune K l = l := pruneFuel_of_le _ _ _ h

/-- `pruneStep` on a list strictly below the cap (or with cap `0`) is a plain
append. -/
theorem pruneStep_append (K : Nat) (l : List ExeRuntime) (r : ExeRuntime)
    (h : K = 0 ∨ l.length + 1 ≤ K) : pruneStep K l r = l ++ [r] := by
  unfold pruneStep
  rcases h with h | h
  · subst h
    rfl
  · split
    · exact prune_of_le _ _ (by simpa using h)
    · rfl

/-- The successful case of `addExeRuntime`: with an in-range start time, the
sample is appended and the retained list pruned (`pruneStep`). -/
theorem addExeRuntime_ok (stt : ExecveTiming) (s : ℚ) (e : String) (t : ℚ) (p : String)
    (hr : TimeInRange s) :
    addExeRuntime stt s e t p
      = .ok { stt with
          exeRuntimes := pruneStep stt.nSlowestSamples stt.exeRuntimes ⟨s, e, t, p⟩ } := by
  unfold addExeRuntime pruneStep
  rw [unixFloat_ok hr]

/-- `handleExecMatch` on a pid with no live entry: no record is emitted, the
live entry is opened. -/
theorem handleExecMatch_fresh (trace : ExecveTiming) (w pid ts exe : String) (T : ℚ)
    (hts : parseDecimal ts = some T) (hget : (getPid trace.tracker pid).2 = "") :
    handleExecMatch trace [w, pid, ts, exe]
      = .ok { trace with tracker := addPid trace.tracker pid T exe } := by
  simp only [handleExecMatch, List.isEmpty, parsePIDAndReturnOthers,
    List.getD_cons_succ, List.getD_cons_zero, hts]
  rw [if_neg (by simp)]
  simp only [hget]
  rw [if_neg (by simp)]

/-- `handleExecMatch` on a pid with a live entry: the previous image is
closed with duration `newStart - oldStart` and the live entry replaced. -/
theorem handleExecMatch_live (trace : ExecveTiming) (w pid ts exe : String) (T S : ℚ)
    (e0 : String) (hts : parseDecimal ts = some T)
    (hget : getPid trace.tracker pid = (S, e0)) (he : e0 ≠ "") (hr : TimeInRange S) :
    handleExecMatch trace [w, pid, ts, exe]
      = .ok { trace with
          exeRuntimes := pruneStep trace.nSlowestSamples trace.exeRuntimes ⟨S, e0, qSub T S, pid⟩
          tracker := addPid trace.tracker pid T exe } := by
  simp only [handleExecMatch, List.isEmpty, parsePIDAndReturnOthers,
    List.getD_cons_succ, List.getD_cons_zero, hts]
  rw [if_neg (by simp)]
  simp only [hget]
  rw [if_pos he, addExeRuntime_ok _ _ _ _ _ hr]

/-- `handleSignalMatch` for a pid with no live entry: complete no-op. -/
theorem handleSignalMatch_dead (trace : ExecveTiming) (w ts sig p' : String) (S : ℚ)
    (hts : parseDecimal ts = some S) (hget : (getPid trace.tracker p').2 = "") :
    handleSignalMatch trace [w, ts, sig, p'] = .ok trace := by
  simp only [handleSignalMatch, List.isEmpty, parsePIDAndReturnOthers,
    List.getD_cons_succ, List.getD_cons_zero, hts]
  rw [if_neg (by simp)]
  simp only [hget]
  rw [if_neg (by simp)]

/-- `handleSignalMatch` for a live pid: close the entry at the signal time
and delete it from the tracker. -/
theorem handleSignalMatch_live (trace : ExecveTiming) (w ts sig p' : String) (S T : ℚ)
    (e0 : String) (hts : parseDecimal ts = some T)
    (hget : getPid trace.tracker p' = (S, e0)) (he : e0 ≠ "") (hr : TimeInRange S) :
    handleSignalMatch trace [w, ts, sig, p']
      = .ok { trace with
          exeRuntimes := pruneStep trace.nSlowestSamples trace.exeRuntimes ⟨S, e0, qSub T S, p'⟩
          tracker := deletePid trace.tracker p' } := by
  simp only [handleSignalMatch, List.isEmpty, parsePIDAndReturnOthers,
    List.getD_cons_succ, List.getD_cons_zero, hts]
  rw [if_neg (by simp)]
  simp only [hget]
  rw [if_pos he, addExeRuntime_ok _ _ _ _ _ hr]

/-! ## C4: exec replacing a live image -/

/-- C4: processing two exec matches for the same pid — image `a` at `T1`,
then image `b` at `T2`, with no intervening termination — from a fresh
accumulator produces exactly one `ExeRuntime`, for image `a` with start `T1`
and duration `T2 - T1`, and leaves the tracker's live entry for the pid
holding image `b` with start `T2` (for every retention cap `K`). -/
theorem double_exec_single_record (K : Nat) (w1 w2 pid a b t1s t2s : String) (T1 T2 : ℚ)
    (h1 : parseDecimal t1s = some T1) (h2 : parseDecimal t2s = some T2)
    (ha : a ≠ "") (hr : TimeInRange T1) :
    (handleExecMatch (newExecveTiming K) [w1, pid, t1s, a]).bind
        (fun s => handleExecMatch s [w2, pid, t2s, b])
      = .ok { totalTime := 0
              exeRuntimes := [⟨T1, a, qSub T2 T1, pid⟩]
              nSlowestSamples := K
              tracker := [(pid, ⟨T2, b⟩)] } := by
  rw [handleExecMatch_fresh (newExecveTiming K) w1 pid t1s a T1 h1 rfl]
  have haddPid : addPid ([] : PidTracker) pid T1 a = [(pid, ⟨T1, a⟩)] := rfl
  simp only [newExecveTiming, haddPid, Except.bind]
  rw [handleExecMatch_live _ w2 pid t2s b T2 T1 a h2 (by simp [getPid]) ha hr]
  have : pruneStep K [] ⟨T1, a, qSub T2 T1, pid⟩ = [⟨T1, a, qSub T2 T1, pid⟩] := by
    apply pruneStep_append
    simp only [List.length_nil]
    omega
  simp only [this]
  have : addPid [(pid, ⟨T1, a⟩)] pid T2 b = [(pid, ⟨T2, b⟩)] := by
    simp [addPid]
  simp only [this]

/-- Witness for `double_exec_single_record` at concrete inputs. -/
theorem double_exec_single_record_witness :
    (handleExecMatch (newExecveTiming 5) ["", "9", "10.5", "/a"]).bind
        (fun s => handleExecMatch s ["", "9", "12.5", "/b"])
      = .ok { totalTime := 0
              exeRuntimes := [⟨mkRat 21 2, "/a", qSub (mkRat 25 2) (mkRat 21 2), "9"⟩]
              nSlowestSamples := 5
              tracker := [("9", ⟨mkRat 25 2, "/b"⟩)] } :=
  double_exec_single_record 5 "" "" "9" "/a" "/b" "10.5" "12.5" (mkRat 21 2) (mkRat 25 2)
    (by decide) (by decide) (by decide) (by decide)

/-! ## C5: pid reuse -/

/-- C5: a full exec/terminate, exec/terminate sequence on one (reused) pid
produces two independent `ExeRuntime` records — one per lifecycle — and
leaves the tracker empty: closing a lifecycle entry removes the pid's live
entry, so the second exec starts a fresh record.  Additionally, a
termination event for a pid with no live entry produces no record and
leaves the whole accumulator state unchanged. -/
theorem pid_reuse_independent_records :
    (∀ (w1 w2 w3 w4 pid a b t1s t2s s1s s2s sig1 sig2 : String) (T1 T2 S1 S2 : ℚ),
      parseDecimal t1s = some T1 → parseDecimal t2s = some T2 →
      parseDecimal s1s = some S1 → parseDecimal s2s = some S2 →
      a ≠ "" → b ≠ "" → TimeInRange T1 → TimeInRange T2 →
      ((handleExecMatch (newExecveTiming 0) [w1, pid, t1s, a]).bind
          (fun s => handleSignalMatch s [w2, s1s, sig1, pid])).bind
        (fun s => (handleExecMatch s [w3, pid, t2s, b]).bind
          (fun s => handleSignalMatch s [w4, s2s, sig2, pid]))
        = .ok { totalTime := 0
                exeRuntimes := [⟨T1, a, qSub S1 T1, pid⟩, ⟨T2, b, qSub S2 T2, pid⟩]
                nSlowestSamples := 0
                tracker := [] }) ∧
    (∀ (trace : ExecveTiming) (w ts sig p' : String) (S : ℚ),
      parseDecimal ts = some S → (getPid trace.tracker p').2 = "" →
      handleSignalMatch trace [w, ts, sig, p'] = .ok trace) := by
  constructor
  · intro w1 w2 w3 w4 pid a b t1s t2s s1s s2s sig1 sig2 T1 T2 S1 S2
      h1 h2 hs1 hs2 ha hb hr1 hr2
    have haddPid : ∀ (T : ℚ) (e : String),
        addPid ([] : PidTracker) pid T e = [(pid, ⟨T, e⟩)] := fun _ _ => rfl
    have hdel : ∀ (T : ℚ) (e : String),
        deletePid [(pid, (⟨T, e⟩ : ExeStart))] pid = [] := by
      intro T e
      simp [deletePid]
    have hget : ∀ (T : ℚ) (e : String),
        getPid [(pid, (⟨T, e⟩ : ExeStart))] pid = (T, e) := by
      intro T e
      simp [getPid]
    rw [handleExecMatch_fresh (newExecveTiming 0) w1 pid t1s a T1 h1 rfl]
    simp only [newExecveTiming, haddPid, Except.bind]
    rw [handleSignalMatch_live _ w2 s1s sig1 pid T1 S1 a hs1 (hget T1 a) ha hr1]
    simp only [hdel, pruneStep, if_neg (lt_irrefl 0), List.nil_append]
    rw [handleExecMatch_fresh _ w3 pid t2s b T2 h2 (by simp [getPid])]
    simp only [haddPid, Except.bind]
    rw [handleSignalMatch_live _ w4 s2s sig2 pid T2 S2 b hs2 (hget T2 b) hb hr2]
    simp only [hdel, pruneStep, if_neg (lt_irrefl 0), List.singleton_append]
  · intro trace w ts sig p' S hts hget
    exact handleSignalMatch_dead trace w ts sig p' S hts hget

/-- Witness for `pid_reuse_independent_records` at concrete inputs. -/
theorem pid_reuse_independent_records_witness :
    (((handleExecMatch (newExecveTiming 0) ["", "100", "1.5", "/a"]).bind
        (fun s => handleSignalMatch s ["", "2.5", "CHLD", "100"])).bind
      (fun s => (handleExecMatch s ["", "100", "3.5", "/b"]).bind
        (fun s => handleSignalMatch s ["", "4.5", "CHLD", "100"]))
      = .ok { totalTime := 0
              exeRuntimes := [⟨mkRat 3 2, "/a", qSub (mkRat 5 2) (mkRat 3 2), "100"⟩,
                              ⟨mkRat 7 2, "/b", qSub (mkRat 9 2) (mkRat 7 2), "100"⟩]
              nSlowestSamples := 0
              tracker := [] }) ∧
    handleSignalMatch (newExecveTiming 0) ["", "2.5", "CHLD", "100"]
      = .ok (newExecveTiming 0) :=
  ⟨pid_reuse_independent_records.1 "" "" "" "" "100" "/a" "/b" "1.5" "3.5" "2.5" "4.5"
      "CHLD" "CHLD" (mkRat 3 2) (mkRat 7 2) (mkRat 5 2) (mkRat 9 2)
      (by decide) (by decide) (by decide) (by decide) (by decide) (by decide)
      (by decide) (by decide),
   pid_reuse_independent_records.2 (newExecveTiming 0) "" "2.5" "CHLD" "100"
      (mkRat 5 2) (by decide) rfl⟩

/-! ## Properties of the minimum scan and of `prune` -/

/-- `fastestIdx` returns the first index attaining the minimal duration: it
is in range, its duration is minimal, and every earlier index has a
strictly larger duration. -/
theorem fastestIdx_spec (l : List ExeRuntime) (h : l ≠ []) :
    fastestIdx l < l.length ∧
    (∀ j, j < l.length →
      (l.getD (fastestIdx l) default).totalSec ≤ (l.getD j default).totalSec) ∧
    (∀ j, j < fastestIdx l →
      (l.getD (fastestIdx l) default).totalSec < (l.getD j default).totalSec) := by
  have hlen : 0 < l.length := List.length_pos.mpr h
  have aux : ∀ n, 0 < n → n ≤ l.length →
      (List.range n).foldl
          (fun fastest idx =>
            if (l.getD idx default).totalSec < (l.getD fastest default).totalSec then idx
            else fastest) 0 < n ∧
      (∀ j, j < n →
        (l.getD ((List.range n).foldl
            (fun fastest idx =>
              if (l.getD idx default).totalSec < (l.getD fastest default).totalSec then idx
              else fastest) 0) default).totalSec ≤ (l.getD j default).totalSec) ∧
      (∀ j, j < (List.range n).foldl
            (fun fastest idx =>
              if (l.getD idx default).totalSec < (l.getD fastest default).totalSec then idx
              else fastest) 0 →
        (l.getD ((List.range n).foldl
            (fun fastest idx =>
              if (l.getD idx default).totalSec < (l.getD fastest default).totalSec then idx
              else fastest) 0) default).totalSec < (l.getD j default).totalSec) := by
    intro n
    induction n with
    | zero => omega
    | succ m ih =>
      intro _ hle
      by_cases hm : 0 < m
      · obtain ⟨ih1, ih2, ih3⟩ := ih hm (by omega)
        rw [List.range_succ, List.foldl_append, List.foldl_cons, List.foldl_nil]
        split
        · rename_i hlt
          refine ⟨by omega, ?_, ?_⟩
          · intro j hj
            rcases Nat.lt_succ_iff_lt_or_eq.mp hj with hj | hj
            · exact le_of_lt (lt_of_lt_of_le hlt (ih2 j hj))
            · subst hj
              exact le_refl _
          · intro j hj
            exact lt_of_lt_of_le hlt (ih2 j (by omega))
        · rename_i hnlt
          refine ⟨by omega, ?_, ih3⟩
          intro j hj
          rcases Nat.lt_succ_iff_lt_or_eq.mp hj with hj | hj
          · exact ih2 j hj
          · subst hj
            exact le_of_not_lt hnlt
      · interval_cases m
        simp only [List.range_succ, List.range_zero, List.nil_append, List.foldl_cons,
          List.foldl_nil]
        rw [if_neg (lt_irrefl _)]
        refine ⟨by omega, ?_, by omega⟩
        intro j hj
        interval_cases j
        exact le_refl _
  have := aux l.length hlen le_rfl
  exact this

/-- One eviction step: when the list is exactly one over the cap, `prune`
deletes exactly the element found by the minimum scan. -/
theorem prune_step_eq (K : Nat) (l : List ExeRuntime) (h : l.length = K + 1) :
    prune K l = l.eraseIdx (fastestIdx l) := by
  have hne : l ≠ [] := by
    intro hl
    subst hl
    simp at h
  have hflt := (fastestIdx_spec l hne).1
  unfold prune
  rw [h]
  simp only [pruneFuel]
  rw [if_pos (by omega)]
  apply pruneFuel_of_le
  rw [List.length_eraseIdx, if_pos hflt]
  omega

/-- Elements are fetched by `getD` inside the scan; relate that to `getElem`
and membership. -/
theorem getD_mem_of_lt (l : List ExeRuntime) (i : Nat) (h : i < l.length) :
    l.getD i default ∈ l := by
  rw [List.getD_eq_getElem?_getD, List.getElem?_eq_getElem h]
  exact List.getElem_mem h

/-! ## C10: empty log -/

/-- C10: for an input log containing zero lines, the exec-timing parse
returns the `cannot parse end of exec profile` parse error — the
end-of-session scan of the (empty) last line fails — rather than an
empty-but-valid result or an I/O error, for every retention cap. -/
theorem emptyLog_endParseError (nSlowest : Nat) :
    traceExecveTimings [] nSlowest = .error (.endParse "") := rfl

/-! ## C9: error propagation and the out-of-range panic -/

/-- C9 counterexample: a log line whose fractional-second epoch timestamp
parses to a value outside the `int64` range does NOT produce a typed error
return: the parse reaches `unixFloatSecondsToTime`, which panics
(`Failure.panicked` models the Go `panic`, not an error return).  The
timestamp `99999999999999999999999999.0` is `10^26 - 1 > 2^63`.  This
refutes the claim that no input causes a panic. -/
theorem timingParse_panics_on_huge_timestamp :
    traceExecveTimings ["1 99999999999999999999999999.0 x"] 0
      = .error (.panicked (mkRat (10 ^ 26 - 1) 1)) := by decide

/-- C9 amended: parsing failures surface as single typed errors, except that
a timestamp outside the `int64` float bounds reaching the time conversion
makes `unixFloatSecondsToTime` panic instead of returning an error: the
conversion succeeds exactly on the in-range timestamps and panics on the
out-of-range ones. -/
theorem unixFloat_panic_characterization :
    (∀ t : ℚ, TimeInRange t → unixFloatSecondsToTime t = .ok t) ∧
    (∀ t : ℚ, (t > mkRat (2 ^ 63) 1 ∨ t < mkRat (-(2 ^ 63)) 1) →
      unixFloatSecondsToTime t = .error (.panicked t)) := by
  constructor
  · intro t h
    exact unixFloat_ok h
  · intro t h
    unfold unixFloatSecondsToTime
    rw [if_pos h]

/-- Witness for `unixFloat_panic_characterization` at concrete inputs. -/
theorem unixFloat_panic_characterization_witness :
    unixFloatSecondsToTime (mkRat 5 1) = .ok (mkRat 5 1) ∧
    unixFloatSecondsToTime (mkRat (10 ^ 26 - 1) 1)
      = .error (.panicked (mkRat (10 ^ 26 - 1) 1)) :=
  ⟨unixFloat_panic_characterization.1 (mkRat 5 1) (by decide),
   unixFloat_panic_characterization.2 (mkRat (10 ^ 26 - 1) 1) (by decide)⟩

/-! ## C1: correlation interval bounds -/

/-- C1 counterexample: a `PathAccess` whose timestamp equals the matching
process's start time is NOT attached to it (the containment test
`path.Time.After(start) && path.Time.Before(end)` is strict on both sides),
refuting the claimed inclusive lower bound: here the record for pid `"7"`
spans `[10, 15]`, the event is at time `10` with pid `"7"`, and the process
list comes back unchanged with no access attached. -/
theorem correlate_excludes_start_boundary :
    attachPathAccess [⟨10, "/a", 5, [], "7"⟩] ⟨10, "/f", "open", "7"⟩
      = [⟨10, "/a", 5, [], "7"⟩] := by decide

/-- C1 amended: the correlation pass assigns an event using an interval that
is open at BOTH ends: an event finds no home unless some record of its pid
contains its timestamp strictly between `start` and `start + duration`
(so events at exactly `start` and at exactly `start + duration` are both
excluded), and the first strictly-containing record in list order receives
the event. -/
theorem correlate_open_interval :
    (∀ (procs : List ProcessRuntime) (pa : PathAccess),
        (∀ p ∈ procs,
          ¬(p.pid = pa.pid ∧ p.start < pa.time ∧ pa.time < qAdd p.start p.runDuration)) →
        attachPathAccess procs pa = procs) ∧
    (∀ (pre : List ProcessRuntime) (p : ProcessRuntime) (rest : List ProcessRuntime)
        (pa : PathAccess),
        (∀ q ∈ pre,
          ¬(q.pid = pa.pid ∧ q.start < pa.time ∧ pa.time < qAdd q.start q.runDuration)) →
        p.pid = pa.pid → p.start < pa.time → pa.time < qAdd p.start p.runDuration →
        attachPathAccess (pre ++ p :: rest) pa
          = pre ++ { p with pathAccesses := p.pathAccesses ++ [pa] } :: rest) := by
  constructor
  · intro procs pa h
    induction procs with
    | nil => rfl
    | cons q qs ih =>
      simp only [attachPathAccess]
      rw [if_neg (h q (List.mem_cons_self q qs))]
      rw [ih (fun x hx => h x (List.mem_cons_of_mem q hx))]
  · intro pre p rest pa hpre h1 h2 h3
    induction pre with
    | nil =>
      simp only [List.nil_append, attachPathAccess]
      rw [if_pos ⟨h1, h2, h3⟩]
    | cons q qs ih =>
      simp only [List.cons_append, attachPathAccess, List.append_eq]
      rw [if_neg (hpre q (List.mem_cons_self q qs))]
      rw [ih (fun x hx => hpre x (List.mem_cons_of_mem q hx))]

/-- Witness for `correlate_open_interval` at concrete inputs: an event at
exactly `start` (and one at exactly `start + duration`) is dropped, and an
event strictly inside is attached to the first matching record. -/
theorem correlate_open_interval_witness :
    (attachPathAccess [⟨10, "/a", 5, [], "7"⟩] ⟨15, "/f", "open", "7"⟩
      = [⟨10, "/a", 5, [], "7"⟩]) ∧
    (attachPathAccess [⟨10, "/a", 5, [], "8"⟩] ⟨12, "/f", "open", "7"⟩
      = [⟨10, "/a", 5, [], "8"⟩]) ∧
    (attachPathAccess [⟨10, "/a", 5, [], "8"⟩, ⟨10, "/b", 5, [], "7"⟩]
        ⟨12, "/f", "open", "7"⟩
      = [⟨10, "/a", 5, [], "8"⟩, ⟨10, "/b", 5, [⟨12, "/f", "open", "7"⟩], "7"⟩]) :=
  ⟨correlate_open_interval.1 [⟨10, "/a", 5, [], "7"⟩] ⟨15, "/f", "open", "7"⟩ (by decide),
   correlate_open_interval.1 [⟨10, "/a", 5, [], "8"⟩] ⟨12, "/f", "open", "7"⟩ (by decide),
   correlate_open_interval.2 [⟨10, "/a", 5, [], "8"⟩] ⟨10, "/b", 5, [], "7"⟩ []
     ⟨12, "/f", "open", "7"⟩ (by decide) (by decide) (by decide) (by decide)⟩

/-! ## C7: deleted-marker trimming -/

/-- A string ending in `" (deleted)"` also ends in `"(deleted)"`. -/
theorem hasSuffix_deleted {p : String} (h : strHasSuffix p " (deleted)" = true) :
    strHasSuffix p "(deleted)" = true := by
  unfold strHasSuffix at *
  rw [List.isSuffixOf_iff_suffix] at *
  exact List.IsSuffix.trans ⟨[' '], rfl⟩ h

/-- C7 counterexample: not every matcher trims the deleted-file marker.  The
line `1 2.5 open("/tmp/x (deleted)", O_RDONLY) = 3` is claimed by the
path-first-argument matcher, whose handler (`handleAbsPathMatch`) records
the captured path verbatim: the recorded `PathAccess` path still ends in
`" (deleted)"`. -/
theorem absPath_deleted_untrimmed :
    processPathMatchers newExecveFiles "1 2.5 open(\"/tmp/x (deleted)\", O_RDONLY) = 3"
      = .ok { newExecveFiles with
          pathProcesses := [⟨mkRat 5 2, "/tmp/x (deleted)", "open", "1"⟩] } := by decide

/-- C7 amended: the fd-derived matchers trim the deleted-file marker — the
handler of the fd-only and AT_FDCWD shapes (`handlePathMatchElem4`) and the
handler of the fd-plus-relative-path shape (`handleFdAndPathMatch`) record
the path with the `" (deleted)"` suffix removed, and in particular the
fixture line with `/tmp/.glDNftWu (deleted)` is recorded as
`/tmp/.glDNftWu` — while the bare-absolute-path handler
(`handleAbsPathMatch`) records its captured path verbatim, marker and
all. -/
theorem deleted_marker_trimming :
    (∀ (trace : ExecvePaths) (w pid ts sys p : String) (T : ℚ),
        parseDecimal ts = some T → TimeInRange T →
        strHasSuffix p " (deleted)" = true →
        handlePathMatchElem4 trace [w, pid, ts, sys, p]
          = .ok (true, addProcessPathAccess trace
              ⟨T, trimSuffixStr p " (deleted)", sys, pid⟩)) ∧
    (∀ (trace : ExecvePaths) (w pid ts sys m4 m5 : String) (T : ℚ),
        parseDecimal ts = some T → TimeInRange T →
        strHasSuffix (filepathJoin m4 m5) " (deleted)" = true →
        handleFdAndPathMatch trace [w, pid, ts, sys, m4, m5]
          = .ok (true, addProcessPathAccess trace
              ⟨T, trimSuffixStr (filepathJoin m4 m5) " (deleted)", sys, pid⟩)) ∧
    (∀ (trace : ExecvePaths) (line w pid ts sys p : String) (T : ℚ),
        parseDecimal ts = some T → TimeInRange T →
        handleAbsPathMatch trace line [w, pid, ts, sys, p]
          = .ok (true, addProcessPathAccess trace ⟨T, p, sys, pid⟩)) ∧
    processPathMatchers newExecveFiles
        "20721 1592353878.163963 ftruncate(26</tmp/.glDNftWu (deleted)>, 8192) = 0"
      = .ok { newExecveFiles with
          pathProcesses :=
            [⟨mkRat 1592353878163963 1000000, "/tmp/.glDNftWu", "ftruncate", "20721"⟩] } := by
  refine ⟨?_, ?_, ?_, by decide⟩
  · intro trace w pid ts sys p T hts hr hsuf
    simp only [handlePathMatchElem4, List.isEmpty, parsePIDAndReturnOthers,
      List.getD_cons_succ, List.getD_cons_zero, hts, hasSuffix_deleted hsuf,
      if_true, unixFloat_ok hr]
    simp
  · intro trace w pid ts sys m4 m5 T hts hr hsuf
    simp only [handleFdAndPathMatch, List.isEmpty, parsePIDAndReturnOthers,
      List.getD_cons_succ, List.getD_cons_zero, hts, hasSuffix_deleted hsuf,
      if_true, unixFloat_ok hr]
    simp
  · intro trace line w pid ts sys p T hts hr
    simp only [handleAbsPathMatch, List.isEmpty, parsePIDAndReturnOthers,
      List.getD_cons_succ, List.getD_cons_zero, hts, unixFloat_ok hr]
    simp

/-- Witness for `deleted_marker_trimming` at concrete inputs. -/
theorem deleted_marker_trimming_witness :
    (handlePathMatchElem4 newExecveFiles ["", "1", "2.5", "open", "/tmp/a (deleted)"]
      = .ok (true, addProcessPathAccess newExecveFiles ⟨mkRat 5 2, "/tmp/a", "open", "1"⟩)) ∧
    (handleFdAndPathMatch newExecveFiles ["", "1", "2.5", "open", "/d", "x (deleted)"]
      = .ok (true, addProcessPathAccess newExecveFiles ⟨mkRat 5 2, "/d/x", "open", "1"⟩)) ∧
    (handleAbsPathMatch newExecveFiles "" ["", "1", "2.5", "open", "/tmp/a (deleted)"]
      = .ok (true, addProcessPathAccess newExecveFiles
          ⟨mkRat 5 2, "/tmp/a (deleted)", "open", "1"⟩)) := by
  refine ⟨?_, ?_, ?_⟩
  · have h := deleted_marker_trimming.1 newExecveFiles "" "1" "2.5" "open"
      "/tmp/a (deleted)" (mkRat 5 2) (by decide) (by decide) (by decide)
    rw [h]
    decide
  · have h := deleted_marker_trimming.2.1 newExecveFiles "" "1" "2.5" "open"
      "/d" "x (deleted)" (mkRat 5 2) (by decide) (by decide) (by decide)
    rw [h]
    decide
  · exact deleted_marker_trimming.2.2.1 newExecveFiles "" "" "1" "2.5" "open"
      "/tmp/a (deleted)" (mkRat 5 2) (by decide) (by decide)

/-! ## C8: report deduplication -/

/-- C8 counterexample: two correlated accesses with identical
`(path, program)` but different pids are reported as TWO entries, because
the duplicate-detection key of the report builder includes the pid: here
both processes run `/bin/sh` and access `/f`, and the final list has two
entries. -/
theorem dedup_key_includes_pid :
    buildAllFiles (fun _ => true) (fun _ => true) [] (fun _ _ => .ok false) (fun _ => none)
      [⟨0, "/bin/sh", 10, [⟨2, "/f", "open", "1"⟩], "1"⟩,
       ⟨0, "/bin/sh", 10, [⟨3, "/f", "open", "2"⟩], "2"⟩]
      = .ok [⟨"/f", -1, "/bin/sh", "1"⟩, ⟨"/f", -1, "/bin/sh", "2"⟩] := by decide

/-! ## C2: bounded top-K retention -/

theorem getD_append_last (cur : List ExeRuntime) (r : ExeRuntime) :
    (cur ++ [r]).getD cur.length default = r := by
  rw [List.getD_append_right _ _ _ _ le_rfl]
  simp

/-- When the appended record is strictly below every retained duration, the
minimum scan targets it (the last index). -/
theorem fastestIdx_append_of_min (cur : List ExeRuntime) (r : ExeRuntime)
    (hall : ∀ x ∈ cur, r.totalSec < x.totalSec) :
    fastestIdx (cur ++ [r]) = cur.length := by
  have hne : cur ++ [r] ≠ [] := by simp
  obtain ⟨hflt, hfle, _⟩ := fastestIdx_spec (cur ++ [r]) hne
  have hlen : (cur ++ [r]).length = cur.length + 1 := by simp
  by_contra hne2
  have hlt : fastestIdx (cur ++ [r]) < cur.length := by omega
  have hmem : (cur ++ [r]).getD (fastestIdx (cur ++ [r])) default ∈ cur := by
    rw [List.getD_append _ _ _ _ hlt]
    exact getD_mem_of_lt cur _ hlt
  have h1 := hall _ hmem
  have h2 := hfle cur.length (by omega)
  rw [getD_append_last] at h2
  exact absurd h2 (not_le.mpr h1)

/-- When some retained record is strictly below the appended one, the
minimum scan targets a retained index. -/
theorem fastestIdx_append_lt (cur : List ExeRuntime) (r x : ExeRuntime)
    (hx : x ∈ cur) (hlt : x.totalSec < r.totalSec) :
    fastestIdx (cur ++ [r]) < cur.length := by
  have hne : cur ++ [r] ≠ [] := by simp
  obtain ⟨hflt, hfle, _⟩ := fastestIdx_spec (cur ++ [r]) hne
  have hlen : (cur ++ [r]).length = cur.length + 1 := by simp
  by_contra hge
  push_neg at hge
  have heq : fastestIdx (cur ++ [r]) = cur.length := by omega
  obtain ⟨ix, hix, hgx⟩ := List.mem_iff_getElem.mp hx
  have h2 := hfle ix (by omega)
  rw [heq, getD_append_last, List.getD_append _ _ _ _ hix,
    List.getD_eq_getElem?_getD, List.getElem?_eq_getElem hix] at h2
  simp only [Option.getD_some, hgx] at h2
  exact absurd h2 (not_le.mpr hlt)

theorem getD_eq_getElem_self (l : List ExeRuntime) (i : Nat) (h : i < l.length) :
    l.getD i default = l[i] := by
  rw [List.getD_eq_getElem?_getD, List.getElem?_eq_getElem h]
  rfl

theorem nodup_of_pairwise_ne_dur {l : List ExeRuntime}
    (h : l.Pairwise (fun a b => a.totalSec ≠ b.totalSec)) : l.Nodup :=
  h.imp (fun hab he => hab (by rw [he]))

theorem not_mem_eraseIdx_self {cur : List ExeRuntime} (hnd : cur.Nodup)
    (i : Nat) (hi : i < cur.length) :
    cur.getD i default ∉ cur.eraseIdx i := by
  intro hmem
  rw [List.mem_eraseIdx_iff_getElem] at hmem
  obtain ⟨k, hk, hki, hkeq⟩ := hmem
  rw [List.getD_eq_getElem?_getD, List.getElem?_eq_getElem hi] at hkeq
  simp only [Option.getD_some] at hkeq
  exact hki (hnd.getElem_inj_iff.mp hkeq)

/-- One insertion preserves the top-K invariant. -/
theorem isTopK_step (K : Nat) (done cur : List ExeRuntime) (r : ExeRuntime)
    (hK : 0 < K)
    (hdist : (done ++ [r]).Pairwise (fun a b => a.totalSec ≠ b.totalSec))
    (h : IsTopK K done cur) :
    IsTopK K (done ++ [r]) (pruneStep K cur r) := by
  obtain ⟨hsub, hlenc, hdom⟩ := h
  have hdist_done : done.Pairwise (fun a b => a.totalSec ≠ b.totalSec) :=
    List.Pairwise.sublist (List.sublist_append_left done [r]) hdist
  have hnd_done : done.Nodup := nodup_of_pairwise_ne_dur hdist_done
  have hnd_cur : cur.Nodup := hnd_done.sublist hsub
  have hr_ne : ∀ x ∈ done, x.totalSec ≠ r.totalSec := by
    have hpa := List.pairwise_append.mp hdist
    intro x hx
    exact hpa.2.2 x hx r (List.mem_singleton.mpr rfl)
  have hdur_ne : ∀ a ∈ done, ∀ b ∈ done, a ≠ b → a.totalSec ≠ b.totalSec := by
    intro a ha b hb hab
    exact List.Pairwise.forall (fun x y hxy => hxy.symm) hdist_done ha hb hab
  have hminle := Nat.min_le_left done.length K
  have hminle2 := Nat.min_le_right done.length K
  rcases Nat.lt_or_ge cur.length K with hlt | hge
  · have hstep : pruneStep K cur r = cur ++ [r] :=
      pruneStep_append K cur r (Or.inr (by omega))
    have hdlen : done.length = cur.length := by omega
    have hcd : cur = done := hsub.eq_of_length (by omega)
    rw [hstep]
    refine ⟨by rw [hcd], ?_, ?_⟩
    · simp only [List.length_append, List.length_cons, List.length_nil]
      omega
    · intro y hy hyn x _
      rw [hcd] at hyn
      exact absurd hy hyn
  · have hck : cur.length = K := by omega
    have hdk : K ≤ done.length := by omega
    have hlen1 : (cur ++ [r]).length = K + 1 := by simp [hck]
    have hstep : pruneStep K cur r = prune K (cur ++ [r]) := by
      unfold pruneStep
      rw [if_pos hK]
    rw [hstep, prune_step_eq K _ hlen1]
    by_cases hall : ∀ x ∈ cur, r.totalSec < x.totalSec
    · rw [fastestIdx_append_of_min cur r hall,
        List.eraseIdx_append_of_length_le le_rfl]
      simp only [Nat.sub_self, List.eraseIdx, List.append_nil]
      refine ⟨hsub.trans (List.sublist_append_left done [r]), ?_, ?_⟩
      · simp only [List.length_append, List.length_cons, List.length_nil]
        omega
      · intro y hy hyn x hx
        rcases List.mem_append.mp hy with hy | hy
        · exact hdom y hy hyn x hx
        · rcases List.mem_singleton.mp hy with rfl
          exact hall x hx
    · push_neg at hall
      obtain ⟨x0, hx0, hx0le⟩ := hall
      have hx0lt : x0.totalSec < r.totalSec :=
        lt_of_le_of_ne hx0le (hr_ne x0 (hsub.subset hx0))
      have hfi := fastestIdx_append_lt cur r x0 hx0 hx0lt
      have hne : cur ++ [r] ≠ [] := by simp
      obtain ⟨hflt, hfle, _⟩ := fastestIdx_spec (cur ++ [r]) hne
      rw [List.eraseIdx_append_of_lt_length hfi]
      have hee : (cur ++ [r]).getD (fastestIdx (cur ++ [r])) default
          = cur.getD (fastestIdx (cur ++ [r])) default :=
        List.getD_append _ _ _ _ hfi
      have hemem : cur.getD (fastestIdx (cur ++ [r])) default ∈ cur :=
        getD_mem_of_lt cur _ hfi
      have hemin : ∀ x ∈ cur,
          (cur.getD (fastestIdx (cur ++ [r])) default).totalSec ≤ x.totalSec := by
        intro x hx
        obtain ⟨ix, hix, hgx⟩ := List.mem_iff_getElem.mp hx
        have hixlen : ix < (cur ++ [r]).length := by
          simp only [List.length_append, List.length_cons, List.length_nil]
          omega
        have hle := hfle ix hixlen
        rw [hee, List.getD_append _ _ _ _ hix, getD_eq_getElem_self cur ix hix,
          hgx] at hle
        exact hle
      have heminr : (cur.getD (fastestIdx (cur ++ [r])) default).totalSec
          < r.totalSec := by
        have hle := hfle cur.length (by simp)
        rw [hee, getD_append_last] at hle
        exact lt_of_le_of_ne hle (hr_ne _ (hsub.subset hemem))
      have hnotmem : cur.getD (fastestIdx (cur ++ [r])) default
          ∉ cur.eraseIdx (fastestIdx (cur ++ [r])) :=
        not_mem_eraseIdx_self hnd_cur _ hfi
      refine ⟨List.Sublist.append ((cur.eraseIdx_sublist _).trans hsub)
        (List.Sublist.refl [r]), ?_, ?_⟩
      · simp only [List.length_append, List.length_cons, List.length_nil,
          List.length_eraseIdx, hfi, if_true]
        omega
      · intro y hy hyn x hx
        rcases List.mem_append.mp hy with hyd | hyr
        · by_cases hyc : y ∈ cur
          · have hye : y = cur.getD (fastestIdx (cur ++ [r])) default := by
              by_contra hne2
              apply hyn
              obtain ⟨iy, hiy, hgy⟩ := List.mem_iff_getElem.mp hyc
              apply List.mem_append_left
              rw [List.mem_eraseIdx_iff_getElem]
              refine ⟨iy, hiy, ?_, hgy⟩
              intro hiyfi
              apply hne2
              subst hiyfi
              rw [getD_eq_getElem_self cur _ hfi]
              exact hgy.symm
            subst hye
            rcases List.mem_append.mp hx with hxl | hxr
            · have hxc : x ∈ cur := (cur.eraseIdx_sublist _).subset hxl
              have hxe : x ≠ cur.getD (fastestIdx (cur ++ [r])) default :=
                fun hxe => hnotmem (hxe ▸ hxl)
              exact lt_of_le_of_ne (hemin x hxc)
                (hdur_ne _ (hsub.subset hemem) x (hsub.subset hxc) (Ne.symm hxe))
            · rcases List.mem_singleton.mp hxr with rfl
              exact heminr
          · rcases List.mem_append.mp hx with hxl | hxr
            · exact hdom y hyd hyc x ((cur.eraseIdx_sublist _).subset hxl)
            · rcases List.mem_singleton.mp hxr with rfl
              exact lt_trans (hdom y hyd hyc _ hemem) heminr
        · rcases List.mem_singleton.mp hyr with rfl
          exact absurd (List.mem_append_right _ (List.mem_singleton.mpr rfl)) hyn

/-- Folding insertions preserves the top-K invariant. -/
theorem isTopK_foldl (K : Nat) (hK : 0 < K) :
    ∀ (todo done cur : List ExeRuntime),
      (done ++ todo).Pairwise (fun a b => a.totalSec ≠ b.totalSec) →
      IsTopK K done cur →
      IsTopK K (done ++ todo) (todo.foldl (pruneStep K) cur)
  | [], done, cur, _, h => by simpa using h
  | r :: todo, done, cur, hdist, h => by
    have hsub1 : (done ++ [r]).Sublist (done ++ r :: todo) :=
      List.Sublist.append (List.Sublist.refl done)
        (List.cons_sublist_cons.mpr (List.nil_sublist todo))
    have hdist1 := List.Pairwise.sublist hsub1 hdist
    have hstep := isTopK_step K done cur r hK hdist1 h
    have hassoc : done ++ r :: todo = (done ++ [r]) ++ todo := by simp
    rw [hassoc] at hdist ⊢
    simp only [List.foldl_cons]
    exact isTopK_foldl K hK todo (done ++ [r]) _ hdist hstep

/-- With in-range start times, driving the accumulator is the pure fold of
`pruneStep` over the retained list. -/
theorem foldlM_addExeRuntime (recs : List ExeRuntime) :
    ∀ (stt : ExecveTiming), (∀ r ∈ recs, TimeInRange r.start) →
      recs.foldlM (fun stt r => addExeRuntime stt r.start r.exe r.totalSec r.pid) stt
        = .ok { stt with
            exeRuntimes := recs.foldl (pruneStep stt.nSlowestSamples) stt.exeRuntimes } := by
  induction recs with
  | nil =>
    intro stt _
    rfl
  | cons r rs ih =>
    intro stt hr
    rw [List.foldlM_cons,
      addExeRuntime_ok stt r.start r.exe r.totalSec r.pid (hr r (List.mem_cons_self r rs))]
    have heta : (⟨r.start, r.exe, r.totalSec, r.pid⟩ : ExeRuntime) = r := rfl
    rw [heta]
    show rs.foldlM (fun stt r => addExeRuntime stt r.start r.exe r.totalSec r.pid)
        { stt with exeRuntimes := pruneStep stt.nSlowestSamples stt.exeRuntimes r } = _
    rw [ih _ (fun x hx => hr x (List.mem_cons_of_mem r hx))]
    rw [List.foldl_cons]

theorem insertAll_ok (K : Nat) (recs : List ExeRuntime)
    (hr : ∀ r ∈ recs, TimeInRange r.start) :
    insertAll K recs = .ok ⟨0, recs.foldl (pruneStep K) [], K, []⟩ :=
  foldlM_addExeRuntime recs (newExecveTiming K) hr

/-- An append-only fold (cap `0`) retains everything in order. -/
theorem foldl_pruneStep_zero (recs : List ExeRuntime) :
    ∀ acc : List ExeRuntime, recs.foldl (pruneStep 0) acc = acc ++ recs := by
  induction recs with
  | nil =>
    intro acc
    simp
  | cons r rs ih =>
    intro acc
    rw [List.foldl_cons, pruneStep_append 0 acc r (Or.inl rfl), ih]
    simp

/-- C2: bounded retention keeps exactly the K largest.  (1) Inserting `N > K`
records with pairwise-distinct durations and in-range start times into a
fresh accumulator with cap `K > 0` retains exactly the `K` records of
largest duration: the retained list is a sublist of the insertions of
length `K`, and every record not retained has strictly smaller duration
than every retained one.  (2) Inserting a record with duration strictly
below the current retained minimum (with the accumulator at its cap)
returns the state unchanged.  (3) With cap `0`, every inserted record is
retained, in insertion order. -/
theorem boundedRetention_topK :
    (∀ (K : Nat) (recs : List ExeRuntime), 0 < K →
      recs.Pairwise (fun a b => a.totalSec ≠ b.totalSec) →
      K < recs.length →
      (∀ r ∈ recs, TimeInRange r.start) →
      ∃ stt, insertAll K recs = .ok stt ∧
        stt.exeRuntimes.Sublist recs ∧
        stt.exeRuntimes.length = K ∧
        (∀ y ∈ recs, y ∉ stt.exeRuntimes →
          ∀ x ∈ stt.exeRuntimes, y.totalSec < x.totalSec)) ∧
    (∀ (stt : ExecveTiming) (r : ExeRuntime), 0 < stt.nSlowestSamples →
      stt.exeRuntimes.length = stt.nSlowestSamples →
      (∀ x ∈ stt.exeRuntimes, r.totalSec < x.totalSec) →
      TimeInRange r.start →
      addExeRuntime stt r.start r.exe r.totalSec r.pid = .ok stt) ∧
    (∀ recs : List ExeRuntime, (∀ r ∈ recs, TimeInRange r.start) →
      ∃ stt, insertAll 0 recs = .ok stt ∧ stt.exeRuntimes = recs) := by
  refine ⟨?_, ?_, ?_⟩
  · intro K recs hK hdist hlen hr
    refine ⟨⟨0, recs.foldl (pruneStep K) [], K, []⟩, insertAll_ok K recs hr, ?_⟩
    have hbase : IsTopK K [] [] :=
      ⟨List.Sublist.refl [], by simp, by intro y hy; cases hy⟩
    have htop := isTopK_foldl K hK recs [] [] (by simpa using hdist) hbase
    rw [List.nil_append] at htop
    obtain ⟨hsub, hlen2, hdom⟩ := htop
    refine ⟨hsub, ?_, hdom⟩
    show (recs.foldl (pruneStep K) []).length = K
    omega
  · intro stt r hK hlen hall hr
    rw [addExeRuntime_ok stt r.start r.exe r.totalSec r.pid hr]
    have heta : (⟨r.start, r.exe, r.totalSec, r.pid⟩ : ExeRuntime) = r := rfl
    rw [heta]
    have hstep : pruneStep stt.nSlowestSamples stt.exeRuntimes r = stt.exeRuntimes := by
      unfold pruneStep
      rw [if_pos hK, prune_step_eq _ _ (by simp [hlen]),
        fastestIdx_append_of_min _ _ hall,
        List.eraseIdx_append_of_length_le le_rfl]
      simp
    rw [hstep]
  · intro recs hr
    refine ⟨⟨0, recs.foldl (pruneStep 0) [], 0, []⟩, insertAll_ok 0 recs hr, ?_⟩
    rw [foldl_pruneStep_zero recs []]
    simp

/-- Witness for `boundedRetention_topK` at concrete inputs: cap 1 with three
distinct-duration records, a below-minimum insertion, and cap 0. -/
theorem boundedRetention_topK_witness :
    (∃ stt, insertAll 1 [⟨0, "/a", 5, "p"⟩, ⟨1, "/b", 7, "q"⟩, ⟨2, "/c", 6, "s"⟩]
        = .ok stt ∧
      stt.exeRuntimes.Sublist
        [⟨0, "/a", 5, "p"⟩, ⟨1, "/b", 7, "q"⟩, ⟨2, "/c", 6, "s"⟩] ∧
      stt.exeRuntimes.length = 1 ∧
      (∀ y ∈ [(⟨0, "/a", 5, "p"⟩ : ExeRuntime), ⟨1, "/b", 7, "q"⟩, ⟨2, "/c", 6, "s"⟩],
        y ∉ stt.exeRuntimes → ∀ x ∈ stt.exeRuntimes, y.totalSec < x.totalSec)) ∧
    (addExeRuntime ⟨0, [⟨0, "/a", 5, "p"⟩], 1, []⟩ 2 "/c" 3 "q"
      = .ok ⟨0, [⟨0, "/a", 5, "p"⟩], 1, []⟩) ∧
    (∃ stt, insertAll 0 [⟨0, "/a", 5, "p"⟩, ⟨1, "/b", 5, "q"⟩] = .ok stt ∧
      stt.exeRuntimes = [⟨0, "/a", 5, "p"⟩, ⟨1, "/b", 5, "q"⟩]) :=
  ⟨boundedRetention_topK.1 1 [⟨0, "/a", 5, "p"⟩, ⟨1, "/b", 7, "q"⟩, ⟨2, "/c", 6, "s"⟩]
      (by decide) (by decide) (by decide) (by decide),
   boundedRetention_topK.2.1 ⟨0, [⟨0, "/a", 5, "p"⟩], 1, []⟩ ⟨2, "/c", 3, "q"⟩
      (by decide) (by decide) (by decide) (by decide),
   boundedRetention_topK.2.2 [⟨0, "/a", 5, "p"⟩, ⟨1, "/b", 5, "q"⟩] (by decide)⟩

/-! ## C8 amended: deduplication by (path, program, pid) -/

theorem buildFromAccess_inv (fileOK progOK : String → Bool) (excl : List String)
    (globMatch : String → String → Except String Bool) (statSize : String → Option Int)
    (proc : ProcessRuntime) (st st' : List CommonFileInfo × List CommonFileInfo)
    (pa : PathAccess)
    (h : buildFromAccess fileOK progOK excl globMatch statSize proc st pa = .ok st')
    (hinv : BuildInv st) : BuildInv st' := by
  obtain ⟨seen, out⟩ := st
  unfold buildFromAccess at h
  split at h
  · cases h
    exact hinv
  · split at h
    · cases h
      exact hinv
    · split at h
      · cases h
      · cases h
        exact hinv
      · rename_i hexcl
        simp only at h
        split at h
        · cases h
          exact hinv
        · rename_i hseen
          cases h
          obtain ⟨hkey, hpair⟩ := hinv
          constructor
          · intro x hx
            rcases List.mem_append.mp hx with hx | hx
            · exact List.mem_append_left _ (hkey x hx)
            · rcases List.mem_singleton.mp hx with rfl
              exact List.mem_append_right _ (List.mem_singleton.mpr rfl)
          · rw [List.pairwise_append]
            refine ⟨hpair, List.pairwise_singleton _ _, ?_⟩
            intro x hx y hy
            rcases List.mem_singleton.mp hy with rfl
            intro ⟨hp, hg, hpd⟩
            apply hseen
            have : fileKey x.path x.program x.pid
                = fileKey pa.path proc.exe proc.pid := by
              simp only [fileKey, hp, hg, hpd]
            rw [List.contains_iff_exists_mem_beq]
            exact ⟨_, hkey x hx, by rw [this]; exact beq_self_eq_true _⟩

theorem foldAccesses_inv (fileOK progOK : String → Bool) (excl : List String)
    (globMatch : String → String → Except String Bool) (statSize : String → Option Int)
    (proc : ProcessRuntime) (pas : List PathAccess)
    (st st' : List CommonFileInfo × List CommonFileInfo)
    (h : pas.foldlM (buildFromAccess fileOK progOK excl globMatch statSize proc) st = .ok st')
    (hinv : BuildInv st) : BuildInv st' := by
  induction pas generalizing st with
  | nil =>
    cases h
    exact hinv
  | cons pa pas ih =>
    rw [List.foldlM_cons] at h
    cases hstep : buildFromAccess fileOK progOK excl globMatch statSize proc st pa with
    | error e =>
      rw [hstep] at h
      cases h
    | ok st1 =>
      rw [hstep] at h
      exact ih st1 h (buildFromAccess_inv _ _ _ _ _ _ _ _ _ hstep hinv)

theorem foldProcs_inv (fileOK progOK : String → Bool) (excl : List String)
    (globMatch : String → String → Except String Bool) (statSize : String → Option Int)
    (procs : List ProcessRuntime) (st st' : List CommonFileInfo × List CommonFileInfo)
    (h : procs.foldlM
        (fun acc proc => proc.pathAccesses.foldlM
          (buildFromAccess fileOK progOK excl globMatch statSize proc) acc) st = .ok st')
    (hinv : BuildInv st) : BuildInv st' := by
  induction procs generalizing st with
  | nil =>
    cases h
    exact hinv
  | cons proc procs ih =>
    rw [List.foldlM_cons] at h
    cases hstep : proc.pathAccesses.foldlM
        (buildFromAccess fileOK progOK excl globMatch statSize proc) st with
    | error e =>
      rw [hstep] at h
      cases h
    | ok st1 =>
      rw [hstep] at h
      exact ih st1 h (foldAccesses_inv _ _ _ _ _ _ _ _ _ hstep hinv)

theorem insertByPath_perm (a : CommonFileInfo) (l : List CommonFileInfo) :
    (insertByPath a l).Perm (a :: l) := by
  induction l with
  | nil => exact List.Perm.refl _
  | cons b l ih =>
    simp only [insertByPath]
    split
    · exact List.Perm.refl _
    · exact (ih.cons b).trans (List.Perm.swap a b l)

theorem sortByPath_perm (l : List CommonFileInfo) : (sortByPath l).Perm l := by
  induction l with
  | nil => exact List.Perm.refl _
  | cons a l ih =>
    simp only [sortByPath, List.foldr_cons]
    exact (insertByPath_perm a _).trans (ih.cons a)

/-- C8 amended: the final file list deduplicates on the full
`(path, program, pid)` key: no two reported entries agree on all three
(entries with equal `(path, program)` but different pids are reported
separately, see the counterexample). -/
theorem allFiles_dedup_by_path_program_pid (fileOK progOK : String → Bool)
    (excl : List String) (globMatch : String → String → Except String Bool)
    (statSize : String → Option Int) (procs : List ProcessRuntime)
    (out : List CommonFileInfo)
    (h : buildAllFiles fileOK progOK excl globMatch statSize procs = .ok out) :
    out.Pairwise DistinctKey := by
  unfold buildAllFiles at h
  cases hf : procs.foldlM
      (fun acc proc => proc.pathAccesses.foldlM
        (buildFromAccess fileOK progOK excl globMatch statSize proc) acc)
      (([], []) : List CommonFileInfo × List CommonFileInfo) with
  | error e =>
    rw [hf] at h
    cases h
  | ok st =>
    rw [hf] at h
    obtain ⟨seen, out0⟩ := st
    cases h
    have hinv := foldProcs_inv fileOK progOK excl globMatch statSize procs _ _ hf
      (And.intro (fun x hx => absurd hx (List.not_mem_nil x)) List.Pairwise.nil)
    have hsym : ∀ {x y : CommonFileInfo}, DistinctKey x y → DistinctKey y x := by
      intro x y hxy ⟨h1, h2, h3⟩
      exact hxy ⟨h1.symm, h2.symm, h3.symm⟩
    exact ((sortByPath_perm out0).pairwise_iff hsym).mpr hinv.2

/-- Witness for `allFiles_dedup_by_path_program_pid` at the concrete
two-process input. -/
theorem allFiles_dedup_witness :
    ([⟨"/f", -1, "/bin/sh", "1"⟩, ⟨"/f", -1, "/bin/sh", "2"⟩]
      : List CommonFileInfo).Pairwise DistinctKey :=
  allFiles_dedup_by_path_program_pid (fun _ => true) (fun _ => true) []
    (fun _ _ => .ok false) (fun _ => none)
    [⟨0, "/bin/sh", 10, [⟨2, "/f", "open", "1"⟩], "1"⟩,
     ⟨0, "/bin/sh", 10, [⟨3, "/f", "open", "2"⟩], "2"⟩]
    [⟨"/f", -1, "/bin/sh", "1"⟩, ⟨"/f", -1, "/bin/sh", "2"⟩]
    (by decide)

/-! ## C3: eviction tie-break -/

/-- C3 counterexample: with cap 1, inserting two records that tie on
duration retains the LATER-inserted one: the linear minimum scan keeps the
first index on ties (`<` is strict), so the earlier-inserted tied record is
the one deleted — the opposite of the claimed tie-break. -/
theorem prune_tie_keeps_later :
    (addExeRuntime (newExecveTiming 1) 0 "/a" 5 "p").bind
        (fun s => addExeRuntime s 1 "/b" 5 "p")
      = .ok { totalTime := 0
              exeRuntimes := [⟨1, "/b", 5, "p"⟩]
              nSlowestSamples := 1
              tracker := [] } := by decide

/-- C3 amended: when the eviction scan must remove a smallest-duration
record and two retained records (at insertion positions `i < j`) tie for
the smallest duration, the eviction target is the FIRST index attaining the
minimum — an index no later than `i` — so the earlier-inserted tied record
is evicted and the later-inserted tied record (position `j`) survives the
pruning step. -/
theorem prune_tie_evicts_earliest (K i j : Nat) (l : List ExeRuntime)
    (hlen : l.length = K + 1) (hij : i < j) (hj : j < l.length)
    (hmin : ∀ k, k < l.length →
      (l.getD j default).totalSec ≤ (l.getD k default).totalSec)
    (htie : (l.getD i default).totalSec = (l.getD j default).totalSec) :
    prune K l = l.eraseIdx (fastestIdx l) ∧ fastestIdx l ≤ i ∧
      l.getD j default ∈ prune K l := by
  have hne : l ≠ [] := by
    intro h
    subst h
    simp at hj
  obtain ⟨hflt, hfle, hfgt⟩ := fastestIdx_spec l hne
  have heq : prune K l = l.eraseIdx (fastestIdx l) := prune_step_eq K l hlen
  have hle : fastestIdx l ≤ i := by
    by_contra hgt
    push_neg at hgt
    have h1 := hfgt i hgt
    have h3 := hmin (fastestIdx l) hflt
    rw [htie] at h1
    exact absurd h3 (not_le.mpr h1)
  refine ⟨heq, hle, ?_⟩
  rw [heq, List.mem_eraseIdx_iff_getElem]
  refine ⟨j, hj, by omega, ?_⟩
  rw [List.getD_eq_getElem?_getD, List.getElem?_eq_getElem hj]
  rfl

/-- Witness for `prune_tie_evicts_earliest` at a concrete input: cap 1, two
records tied at duration 5; the scan targets index 0 and the later record
survives. -/
theorem prune_tie_evicts_earliest_witness :
    prune 1 [⟨0, "/a", 5, "p"⟩, ⟨1, "/b", 5, "p"⟩]
        = [⟨0, "/a", 5, "p"⟩, ⟨1, "/b", 5, "p"⟩].eraseIdx
            (fastestIdx [⟨0, "/a", 5, "p"⟩, ⟨1, "/b", 5, "p"⟩]) ∧
      fastestIdx [⟨0, "/a", 5, "p"⟩, ⟨1, "/b", 5, "p"⟩] ≤ 0 ∧
      [⟨0, "/a", 5, "p"⟩, ⟨1, "/b", 5, "p"⟩].getD 1 default
        ∈ prune 1 [⟨0, "/a", 5, "p"⟩, ⟨1, "/b", 5, "p"⟩] :=
  prune_tie_evicts_earliest 1 0 1 [⟨0, "/a", 5, "p"⟩, ⟨1, "/b", 5, "p"⟩]
    (by decide) (by decide) (by decide)
    (by
      intro k hk
      simp only [List.length_cons, List.length_nil] at hk
      interval_cases k <;> decide)
    (by decide)

/-! ## C6: matcher order -/

/-- C6 amended: the path-matcher dispatch is first-match-wins over the five
matchers in the source order `fdAndPathRE`, `fdRE`, `absPathWithCWDRE`,
`absPathRE`, `absPathFirstRE`: once a matcher claims the line no later
matcher is consulted, so each line contributes at most one path event —
exactly the one described by `firstPathEvent`, which scans the matchers in
that order. -/
theorem path_dispatch_first_match (trace : ExecvePaths) (line : String) :
    processPathMatchers trace line
      = (firstPathEvent line).map (fun ev =>
          match ev with
          | some pa => addProcessPathAccess trace pa
          | none => trace) := by
  unfold processPathMatchers firstPathEvent
    handleFdAndPathMatch handlePathMatchElem4 handleAbsPathMatch
  cases hm1 : findStringSubmatch fdAndPathRE line with
  | cons w1 ms1 =>
    simp only [List.isEmpty_cons, Bool.not_false, if_true, Bool.false_eq_true, if_false]
    cases hp1 : parsePIDAndReturnOthers (w1 :: ms1) with
    | error e => simp [Except.map, hp1]
    | ok trip =>
      obtain ⟨pid, t, sys⟩ := trip
      cases hu1 : unixFloatSecondsToTime t with
      | error e => simp [Except.map, hp1, hu1]
      | ok tt => simp [Except.map, hp1, hu1]
  | nil =>
    simp only [List.isEmpty_nil, Bool.not_true, if_true, Bool.false_eq_true, if_false]
    cases hm2 : findStringSubmatch fdRE line with
    | cons w2 ms2 =>
      simp only [List.isEmpty_cons, Bool.not_false, if_true, Bool.false_eq_true, if_false]
      cases hp2 : parsePIDAndReturnOthers (w2 :: ms2) with
      | error e => simp [Except.map, hp2]
      | ok trip =>
        obtain ⟨pid, t, sys⟩ := trip
        cases hu2 : unixFloatSecondsToTime t with
        | error e => simp [Except.map, hp2, hu2]
        | ok tt => simp [Except.map, hp2, hu2]
    | nil =>
      simp only [List.isEmpty_nil, Bool.not_true, if_true, Bool.false_eq_true, if_false]
      cases hm3 : findStringSubmatch absPathWithCWDRE line with
      | cons w3 ms3 =>
        simp only [List.isEmpty_cons, Bool.not_false, if_true, Bool.false_eq_true, if_false]
        cases hp3 : parsePIDAndReturnOthers (w3 :: ms3) with
        | error e => simp [Except.map, hp3]
        | ok trip =>
          obtain ⟨pid, t, sys⟩ := trip
          cases hu3 : unixFloatSecondsToTime t with
          | error e => simp [Except.map, hp3, hu3]
          | ok tt => simp [Except.map, hp3, hu3]
      | nil =>
        simp only [List.isEmpty_nil, Bool.not_true, if_true, Bool.false_eq_true, if_false]
        cases hm4 : findStringSubmatch absPathRE line with
        | cons w4 ms4 =>
          simp only [List.isEmpty_cons, Bool.not_false, if_true, Bool.false_eq_true, if_false]
          cases hp4 : parsePIDAndReturnOthers (w4 :: ms4) with
          | error e => simp [Except.map, hp4]
          | ok trip =>
            obtain ⟨pid, t, sys⟩ := trip
            cases hu4 : unixFloatSecondsToTime t with
            | error e => simp [Except.map, hp4, hu4]
            | ok tt => simp [Except.map, hp4, hu4]
        | nil =>
          simp only [List.isEmpty_nil, Bool.not_true, if_true, Bool.false_eq_true, if_false]
          cases hm5 : findStringSubmatch absPathFirstRE line with
          | cons w5 ms5 =>
            simp only [List.isEmpty_cons, Bool.not_false, if_true, Bool.false_eq_true,
              if_false]
            cases hp5 : parsePIDAndReturnOthers (w5 :: ms5) with
            | error e => simp [Except.map, hp5]
            | ok trip =>
              obtain ⟨pid, t, sys⟩ := trip
              cases hu5 : unixFloatSecondsToTime t with
              | error e => simp [Except.map, hp5, hu5]
              | ok tt => simp [Except.map, hp5, hu5]
          | nil => simp [Except.map]

/-- C6 counterexample: the fd-only matcher is tried BEFORE the (more
specific) AT_FDCWD matcher.  On this line both matchers match — the
AT_FDCWD matcher would extract `/etc/passwd`, the fd-only matcher extracts
`/tmp/x` — and the dispatch records the fd-only event, refuting the claimed
`AT_FDCWD before fd-only` order. -/
theorem fdOnly_tried_before_cwd :
    (findStringSubmatch absPathWithCWDRE
        "1 2.5 openat(AT_FDCWD, \"/etc/passwd\", 3</tmp/x>) = 0"
      = ["1 2.5 openat(AT_FDCWD, \"/etc/passwd\", 3</tmp/x>) = 0",
         "1", "2.5", "openat", "/etc/passwd"]) ∧
    (findStringSubmatch fdRE
        "1 2.5 openat(AT_FDCWD, \"/etc/passwd\", 3</tmp/x>) = 0"
      = ["1 2.5 openat(AT_FDCWD, \"/etc/passwd\", 3</tmp/x>) = 0",
         "1", "2.5", "openat", "/tmp/x"]) ∧
    processPathMatchers newExecveFiles
        "1 2.5 openat(AT_FDCWD, \"/etc/passwd\", 3</tmp/x>) = 0"
      = .ok { newExecveFiles with
          pathProcesses := [⟨mkRat 5 2, "/tmp/x", "openat", "1"⟩] } := by
  refine ⟨by decide, by decide, by decide⟩

end Etrace
